import Mathlib

/-!
Verification of the proxy-log analysis pipeline (`analysis/parse_proxy_output.py`).

Python strings are modelled as `List Char` (a Python `str` is a sequence of
unicode code points).  JSON values are modelled by the inductive type `Json`;
the standard-library functions `json.loads` / `json.dumps` are modelled by
executable Lean functions (`json_loads`, `dumpsSorted`, `dumpPretty`) with two
documented simplifications: JSON numbers are restricted to integers (a line
using fractional or exponent syntax is treated as a parse failure), and
`\uXXXX` escapes that form lone surrogates are treated as a parse failure
(Lean's `Char` carries only unicode scalar values).
-/

abbrev Str := List Char

def strOf (s : String) : Str := s.toList

/-- Python whitespace for `str.strip` (ASCII subset). -/
def isPySpace (c : Char) : Bool :=
  c = ' ' || c = '\t' || c = '\n' || c = '\x0d' || c = '\x0b' || c = '\x0c'

/-- Python `str.strip()`. -/
def pyStrip (s : Str) : Str :=
  ((s.dropWhile isPySpace).reverse.dropWhile isPySpace).reverse

inductive Json where
  | null
  | bool (b : Bool)
  | num (n : Int)
  | str (s : Str)
  | arr (elems : List Json)
  | obj (fields : List (Str × Json))
  deriving Repr

/-- Python truthiness of a decoded JSON value. -/
def pyTruthy : Json → Bool
  | .null => false
  | .bool b => b
  | .num n => n != 0
  | .str s => !s.isEmpty
  | .arr l => !l.isEmpty
  | .obj l => !l.isEmpty

/-- Python `==` between values usable as `dict` keys (hashable scalars
parsed from JSON).  `True == 1` and `False == 0` as in Python.  Containers
are never keys (using one as a key raises `TypeError`). -/
def pyKeyEq : Json → Json → Bool
  | .null, .null => true
  | .bool a, .bool b => decide (a = b)
  | .bool a, .num n => decide ((if a then (1 : Int) else 0) = n)
  | .num n, .bool b => decide (n = (if b then (1 : Int) else 0))
  | .num a, .num b => decide (a = b)
  | .str a, .str b => decide (a = b)
  | _, _ => false

/-- True for values that a Python `dict` can use as a key. -/
def jsonHashable : Json → Bool
  | .arr _ => false
  | .obj _ => false
  | _ => true

/-- Lookup in a JSON object (Python `dict.get` with no default):
first field with the given key. -/
def objGet (fields : List (Str × Json)) (k : Str) : Option Json :=
  (fields.find? (fun p => p.1 = k)).map (·.2)

def digitChar : Nat → Char
  | 0 => '0' | 1 => '1' | 2 => '2' | 3 => '3' | 4 => '4'
  | 5 => '5' | 6 => '6' | 7 => '7' | 8 => '8' | 9 => '9'
  | _ => '?'

def hexChar : Nat → Char
  | 0 => '0' | 1 => '1' | 2 => '2' | 3 => '3' | 4 => '4'
  | 5 => '5' | 6 => '6' | 7 => '7' | 8 => '8' | 9 => '9'
  | 10 => 'a' | 11 => 'b' | 12 => 'c' | 13 => 'd' | 14 => 'e' | 15 => 'f'
  | _ => '?'

def natReprAux : Nat → Nat → Str
  | 0, _ => []
  | fuel + 1, n => if n < 10 then [digitChar n] else natReprAux fuel (n / 10) ++ [digitChar (n % 10)]

/-- Decimal representation of a natural number (Python `str(n)`). -/
def natRepr (n : Nat) : Str := natReprAux (n + 1) n

/-- Decimal representation of an integer (Python `str(n)` / `json.dumps(n)`). -/
def intRepr : Int → Str
  | .ofNat n => natRepr n
  | .negSucc k => '-' :: natRepr (k + 1)

def hex4 (n : Nat) : Str :=
  [hexChar (n / 4096 % 16), hexChar (n / 256 % 16), hexChar (n / 16 % 16), hexChar (n % 16)]

/-- One character of a JSON string as emitted by `json.dumps` with
`ensure_ascii=True` (the default, used for dedup signatures). -/
def escCharAscii (c : Char) : Str :=
  if c = '"' then ['\\', '"']
  else if c = '\\' then ['\\', '\\']
  else if c = '\n' then ['\\', 'n']
  else if c = '\t' then ['\\', 't']
  else if c = '\x0d' then ['\\', 'r']
  else if c = '\x08' then ['\\', 'b']
  else if c = '\x0c' then ['\\', 'f']
  else if c.toNat < 32 then '\\' :: 'u' :: hex4 c.toNat
  else if c.toNat < 127 then [c]
  else if c.toNat < 65536 then '\\' :: 'u' :: hex4 c.toNat
  else
    '\\' :: 'u' :: hex4 (55296 + (c.toNat - 65536) / 1024) ++
      '\\' :: 'u' :: hex4 (56320 + (c.toNat - 65536) % 1024)

/-- One character of a JSON string as emitted by `json.dumps` with
`ensure_ascii=False` (used by `format_json`). -/
def escCharRaw (c : Char) : Str :=
  if c = '"' then ['\\', '"']
  else if c = '\\' then ['\\', '\\']
  else if c = '\n' then ['\\', 'n']
  else if c = '\t' then ['\\', 't']
  else if c = '\x0d' then ['\\', 'r']
  else if c = '\x08' then ['\\', 'b']
  else if c = '\x0c' then ['\\', 'f']
  else if c.toNat < 32 then '\\' :: 'u' :: hex4 c.toNat
  else [c]

def escStrAscii (s : Str) : Str :=
  '"' :: s.foldr (fun c acc => escCharAscii c ++ acc) ['"']

def escStrRaw (s : Str) : Str :=
  '"' :: s.foldr (fun c acc => escCharRaw c ++ acc) ['"']

/-- Key order used by `json.dumps(..., sort_keys=True)` (Python `str <`,
lexicographic on code points). -/
def keyPairLe (a b : Str × Str) : Prop := a.1 ≤ b.1

instance : DecidableRel keyPairLe := fun a b => inferInstanceAs (Decidable (a.1 ≤ b.1))

/-- Join already-rendered object fields as `"k": v` separated by `", "`. -/
def joinFieldsComma : List (Str × Str) → Str
  | [] => []
  | [(k, v)] => escStrAscii k ++ ':' :: ' ' :: v
  | (k, v) :: p :: tl => escStrAscii k ++ ':' :: ' ' :: v ++ ',' :: ' ' :: joinFieldsComma (p :: tl)

mutual

/-- `json.dumps(v, sort_keys=True)`: compact serialization with default
separators `", "`, `": "` and sorted object keys; used to build the
request-dedup signature. -/
def dumpsSorted : Json → Str
  | .null => strOf "null"
  | .bool true => strOf "true"
  | .bool false => strOf "false"
  | .num n => intRepr n
  | .str s => escStrAscii s
  | .arr l => '[' :: dumpsSortedElems l ++ [']']
  | .obj l => '{' :: joinFieldsComma (List.insertionSort keyPairLe (dumpsSortedFields l)) ++ ['}']

def dumpsSortedElems : List Json → Str
  | [] => []
  | [j] => dumpsSorted j
  | j :: j2 :: tl => dumpsSorted j ++ ',' :: ' ' :: dumpsSortedElems (j2 :: tl)

def dumpsSortedFields : List (Str × Json) → List (Str × Str)
  | [] => []
  | (k, v) :: tl => (k, dumpsSorted v) :: dumpsSortedFields tl

end

def indentSp (n : Nat) : Str := List.replicate n ' '

mutual

/-- `json.dumps(v, indent=iw, ensure_ascii=False)` at indentation level
`lvl` (in spaces): the pretty form used by `format_json`. -/
def dumpPretty : Json → Nat → Nat → Str
  | .null, _, _ => strOf "null"
  | .bool true, _, _ => strOf "true"
  | .bool false, _, _ => strOf "false"
  | .num n, _, _ => intRepr n
  | .str s, _, _ => escStrRaw s
  | .arr [], _, _ => ['[', ']']
  | .arr (j :: tl), iw, lvl =>
    '[' :: '\n' :: dumpPrettyElems (j :: tl) iw (lvl + iw) ++ '\n' :: indentSp lvl ++ [']']
  | .obj [], _, _ => ['{', '}']
  | .obj (p :: tl), iw, lvl =>
    '{' :: '\n' :: dumpPrettyFields (p :: tl) iw (lvl + iw) ++ '\n' :: indentSp lvl ++ ['}']

def dumpPrettyElems : List Json → Nat → Nat → Str
  | [], _, _ => []
  | [j], iw, lvl => indentSp lvl ++ dumpPretty j iw lvl
  | j :: j2 :: tl, iw, lvl =>
    indentSp lvl ++ dumpPretty j iw lvl ++ ',' :: '\n' :: dumpPrettyElems (j2 :: tl) iw lvl

def dumpPrettyFields : List (Str × Json) → Nat → Nat → Str
  | [], _, _ => []
  | [(k, v)], iw, lvl => indentSp lvl ++ escStrRaw k ++ ':' :: ' ' :: dumpPretty v iw lvl
  | (k, v) :: p :: tl, iw, lvl =>
    indentSp lvl ++ escStrRaw k ++ ':' :: ' ' :: dumpPretty v iw lvl ++
      ',' :: '\n' :: dumpPrettyFields (p :: tl) iw lvl

end

/-- Python `repr` of a decoded JSON value (simplified: single-quoted strings
escaping `\`, `'` and common controls; Python's quote-style switching for
strings containing `'` is not modelled — only reached when rendering
non-string scalars such as status codes). -/
def reprEscChar (c : Char) : Str :=
  if c = '\\' then ['\\', '\\']
  else if c = '\'' then ['\\', '\'']
  else if c = '\n' then ['\\', 'n']
  else if c = '\t' then ['\\', 't']
  else if c = '\x0d' then ['\\', 'r']
  else [c]

mutual

def pyRepr : Json → Str
  | .null => strOf "None"
  | .bool true => strOf "True"
  | .bool false => strOf "False"
  | .num n => intRepr n
  | .str s => '\'' :: s.foldr (fun c acc => reprEscChar c ++ acc) ['\'']
  | .arr l => '[' :: pyReprElems l ++ [']']
  | .obj l => '{' :: pyReprFields l ++ ['}']

def pyReprElems : List Json → Str
  | [] => []
  | [j] => pyRepr j
  | j :: j2 :: tl => pyRepr j ++ ',' :: ' ' :: pyReprElems (j2 :: tl)

def pyReprFields : List (Str × Json) → Str
  | [] => []
  | [(k, v)] => pyRepr (.str k) ++ ':' :: ' ' :: pyRepr v
  | (k, v) :: p :: tl => pyRepr (.str k) ++ ':' :: ' ' :: pyRepr v ++ ',' :: ' ' :: pyReprFields (p :: tl)

end

/-- Python `str()` of a decoded JSON value (as used by f-string interpolation). -/
def pyStrOf : Json → Str
  | .str s => s
  | j => pyRepr j

example : dumpsSorted (.obj [(strOf "b", .num 1), (strOf "a", .arr [.num 2])]) =
    strOf "\x7b\"a\": [2], \"b\": 1\x7d" := by decide

example : dumpPretty (.obj [(strOf "a", .num 1), (strOf "b", .arr [.num 1, .obj [(strOf "c", .str (strOf "x"))]])]) 2 0 =
    strOf "\x7b\n  \"a\": 1,\n  \"b\": [\n    1,\n    \x7b\n      \"c\": \"x\"\n    \x7d\n  ]\n\x7d" := by decide

/-! ## The JSON text parser (model of `json.loads`) -/

/-- JSON structural whitespace. -/
def isJsonWs (c : Char) : Bool :=
  c = ' ' || c = '\t' || c = '\n' || c = '\x0d'

def skipWs (s : Str) : Str := s.dropWhile isJsonWs

def hexVal (c : Char) : Option Nat :=
  if '0' ≤ c ∧ c ≤ '9' then some (c.toNat - 48)
  else if 'a' ≤ c ∧ c ≤ 'f' then some (c.toNat - 87)
  else if 'A' ≤ c ∧ c ≤ 'F' then some (c.toNat - 70)
  else none

def parseHex4 : Str → Option (Nat × Str)
  | a :: b :: c :: d :: r =>
    match hexVal a, hexVal b, hexVal c, hexVal d with
    | some va, some vb, some vc, some vd => some (va * 4096 + vb * 256 + vc * 16 + vd, r)
    | _, _, _, _ => none
  | _ => none

/-- Decode one `\uXXXX` escape (with surrogate-pair combination).  A lone
surrogate is rejected (Lean `Char` holds only unicode scalar values). -/
def parseUEsc (s : Str) : Option (Char × Str) :=
  match parseHex4 s with
  | none => none
  | some (v, r) =>
    if 55296 ≤ v ∧ v < 56320 then
      match r with
      | '\\' :: 'u' :: r2 =>
        match parseHex4 r2 with
        | some (w, r3) =>
          if 56320 ≤ w ∧ w < 57344 then
            some (Char.ofNat (65536 + (v - 55296) * 1024 + (w - 56320)), r3)
          else none
        | none => none
      | _ => none
    else if 56320 ≤ v ∧ v < 57344 then none
    else some (Char.ofNat v, r)

/-- The body of a JSON string literal, after the opening quote. -/
def parseStrBody : Nat → Str → Option (Str × Str)
  | 0, _ => none
  | _ + 1, [] => none
  | fuel + 1, c :: r =>
    if c = '"' then some ([], r)
    else if c = '\\' then
      match r with
      | [] => none
      | e :: r2 =>
        let dec : Option (Char × Str) :=
          if e = '"' then some ('"', r2)
          else if e = '\\' then some ('\\', r2)
          else if e = '/' then some ('/', r2)
          else if e = 'b' then some ('\x08', r2)
          else if e = 'f' then some ('\x0c', r2)
          else if e = 'n' then some ('\n', r2)
          else if e = 'r' then some ('\x0d', r2)
          else if e = 't' then some ('\t', r2)
          else if e = 'u' then parseUEsc r2
          else none
        match dec with
        | none => none
        | some (ch, r3) =>
          match parseStrBody fuel r3 with
          | none => none
          | some (tail, rest) => some (ch :: tail, rest)
    else if c.toNat < 32 then none
    else
      match parseStrBody fuel r with
      | none => none
      | some (tail, rest) => some (c :: tail, rest)

def digitsToNat (ds : Str) : Nat :=
  ds.foldl (fun acc c => acc * 10 + (c.toNat - 48)) 0

/-- A JSON number.  Restricted model: integers only — a fraction or exponent
part makes the parse fail (documented simplification of `json.loads`). -/
def parseNum (s : Str) : Option (Json × Str) :=
  let (neg, s1) := match s with
    | '-' :: r => (true, r)
    | _ => (false, s)
  let ds := s1.takeWhile Char.isDigit
  let rest := s1.dropWhile Char.isDigit
  if ds = [] then none
  else if ds.length > 1 ∧ ds.headI = '0' then none
  else
    match rest with
    | '.' :: _ => none
    | 'e' :: _ => none
    | 'E' :: _ => none
    | _ =>
      let n : Int := Int.ofNat (digitsToNat ds)
      some (.num (if neg then -n else n), rest)

/-- Insert a parsed object member: a duplicate key replaces the earlier
value in place (Python `dict` semantics). -/
def objUpd : List (Str × Json) → Str → Json → List (Str × Json)
  | [], k, v => [(k, v)]
  | (k', v') :: tl, k, v => if k' = k then (k', v) :: tl else (k', v') :: objUpd tl k v

mutual

def parseValue : Nat → Str → Option (Json × Str)
  | 0, _ => none
  | fuel + 1, s =>
    match skipWs s with
    | 'n' :: 'u' :: 'l' :: 'l' :: r => some (.null, r)
    | 't' :: 'r' :: 'u' :: 'e' :: r => some (.bool true, r)
    | 'f' :: 'a' :: 'l' :: 's' :: 'e' :: r => some (.bool false, r)
    | '"' :: r => (parseStrBody (fuel + 1) r).map (fun p => (.str p.1, p.2))
    | '[' :: r =>
      (match skipWs r with
       | ']' :: r2 => some (.arr [], r2)
       | s2 => (parseElems fuel s2 []).map (fun p => (.arr p.1, p.2)))
    | '{' :: r =>
      (match skipWs r with
       | '}' :: r2 => some (.obj [], r2)
       | s2 => (parseMembers fuel s2 []).map (fun p => (.obj p.1, p.2)))
    | s' => parseNum s'

def parseElems : Nat → Str → List Json → Option (List Json × Str)
  | 0, _, _ => none
  | fuel + 1, s, acc =>
    match parseValue fuel s with
    | none => none
    | some (j, r) =>
      match skipWs r with
      | ',' :: r2 => parseElems fuel r2 (acc ++ [j])
      | ']' :: r2 => some (acc ++ [j], r2)
      | _ => none

def parseMembers : Nat → Str → List (Str × Json) → Option (List (Str × Json) × Str)
  | 0, _, _ => none
  | fuel + 1, s, acc =>
    match skipWs s with
    | '"' :: r =>
      match parseStrBody fuel r with
      | none => none
      | some (k, r2) =>
        match skipWs r2 with
        | ':' :: r3 =>
          match parseValue fuel r3 with
          | none => none
          | some (v, r4) =>
            match skipWs r4 with
            | ',' :: r5 => parseMembers fuel r5 (objUpd acc k v)
            | '}' :: r5 => some (objUpd acc k v, r5)
            | _ => none
        | _ => none
    | _ => none

end

/-- Model of `json.loads`: parse a complete document, allowing surrounding
whitespace, rejecting trailing garbage. -/
def json_loads (s : Str) : Option Json :=
  match parseValue (2 * s.length + 8) s with
  | none => none
  | some (j, rest) => if skipWs rest = [] then some j else none

example : json_loads (strOf " \x7b\"a\": [1, true, null], \"b\": \"x\\n\"\x7d ") =
    some (.obj [(strOf "a", .arr [.num 1, .bool true, .null]), (strOf "b", .str ['x', '\n'])]) := rfl
example : json_loads (strOf "5") = some (.num 5) := rfl
example : json_loads (strOf "xxx") = none := rfl
example : json_loads (strOf "\x7b") = none := rfl
example : json_loads (strOf "1.5") = none := rfl
example : json_loads (strOf "\x7b\x7d") = some (.obj []) := rfl

/-! ## The redaction masks (`mask_sensitive_body`, `mask_sensitive_headers`)

Each regex of the source is deterministic: in every pattern a greedy
character-class run is followed by a character outside that class, so the
Python regex engine never backtracks and the match at a position is the
unique greedy parse.  Each mask is a left-to-right, non-overlapping
substitution (`re.sub`). -/

/-- The character class `[A-Za-z0-9_-]` of the JWT pattern. -/
def jwtClassCh (c : Char) : Bool :=
  ('A' ≤ c && c ≤ 'Z') || ('a' ≤ c && c ≤ 'z') || ('0' ≤ c && c ≤ '9') || c = '_' || c = '-'

/-- Length of the match of `eyJ[A-Za-z0-9_-]*\.eyJ[A-Za-z0-9_-]*\.[A-Za-z0-9_-]*`
at the head of `s`, if any. -/
def jwtMatchLen (s : Str) : Option Nat :=
  match s with
  | 'e' :: 'y' :: 'J' :: r1 =>
    let n1 := (r1.takeWhile jwtClassCh).length
    match r1.dropWhile jwtClassCh with
    | '.' :: 'e' :: 'y' :: 'J' :: r2 =>
      let n2 := (r2.takeWhile jwtClassCh).length
      match r2.dropWhile jwtClassCh with
      | '.' :: r3 =>
        let n3 := (r3.takeWhile jwtClassCh).length
        some (3 + n1 + 1 + 3 + n2 + 1 + n3)
      | _ => none
    | _ => none
  | _ => none

/-- The class `["\s:=]` of the refresh-token pattern (`\s` restricted to
ASCII whitespace). -/
def refreshSepCh (c : Char) : Bool :=
  c = '"' || isPySpace c || c = ':' || c = '='

/-- Hexadecimal under `re.IGNORECASE`: `[a-f0-9]` also matches `A-F`. -/
def hexIcCh (c : Char) : Bool :=
  ('a' ≤ c && c ≤ 'f') || ('A' ≤ c && c ≤ 'F') || ('0' ≤ c && c ≤ '9')

def toLowerStr (s : Str) : Str := s.map Char.toLower

/-- Length of the match of `refresh_token["\s:=]+([a-f0-9]{64,})` (with
`re.IGNORECASE`) at the head of `s`, if any. -/
def refreshMatchLen (s : Str) : Option Nat :=
  if toLowerStr (s.take 13) = strOf "refresh_token" ∧ s.length ≥ 13 then
    let r1 := s.drop 13
    let n1 := (r1.takeWhile refreshSepCh).length
    if n1 = 0 then none
    else
      let nh := ((r1.dropWhile refreshSepCh).takeWhile hexIcCh).length
      if nh < 64 then none else some (13 + n1 + nh)
  else none

/-- Length of the match of `"access_token"\s*:\s*"[^"]*"` at the head of
`s`, if any. -/
def accessMatchLen (s : Str) : Option Nat :=
  if s.take 14 = strOf "\"access_token\"" then
    let r1 := s.drop 14
    let n1 := (r1.takeWhile (fun c => isPySpace c)).length
    match r1.dropWhile (fun c => isPySpace c) with
    | ':' :: r2 =>
      let n2 := (r2.takeWhile (fun c => isPySpace c)).length
      match r2.dropWhile (fun c => isPySpace c) with
      | '"' :: r3 =>
        let nv := (r3.takeWhile (fun c => c ≠ '"')).length
        match r3.dropWhile (fun c => c ≠ '"') with
        | '"' :: _ => some (14 + n1 + 1 + n2 + 1 + nv + 1)
        | _ => none
      | _ => none
    | _ => none
  else none

/-- `re.sub` for a pattern that never matches the empty string: scan left to
right; a match is replaced by `repl` and scanning resumes after it (the
`skip` argument counts the remaining characters of a replaced match). -/
def subSkip (mLen : Str → Option Nat) (repl : Str) : Nat → Str → Str
  | _, [] => []
  | 0, c :: rest =>
    match mLen (c :: rest) with
    | some n => repl ++ subSkip mLen repl (n - 1) rest
    | none => c :: subSkip mLen repl 0 rest
  | k + 1, _ :: rest => subSkip mLen repl k rest

def replJwt : Str := strOf "***JWT_TOKEN***"
def replRefresh : Str := strOf "refresh_token\": \"***MASKED_REFRESH_TOKEN***"
def replAccess : Str := strOf "\"access_token\": \"***MASKED***\""

def maskJwtSub (s : Str) : Str := subSkip jwtMatchLen replJwt 0 s
def maskRefreshSub (s : Str) : Str := subSkip refreshMatchLen replRefresh 0 s
def maskAccessSub (s : Str) : Str := subSkip accessMatchLen replAccess 0 s

/-- `mask_sensitive_body`: mask JWT-shaped tokens, then `refresh_token`
values, then `access_token` values. -/
def mask_sensitive_body (body : Str) : Str :=
  if body.isEmpty then body
  else maskAccessSub (maskRefreshSub (maskJwtSub body))

example : mask_sensitive_body (strOf "x eyJab.eyJcd.sig y") = strOf "x ***JWT_TOKEN*** y" := by decide
example : mask_sensitive_body (strOf "\"access_token\" : \"secret\"") = strOf "\"access_token\": \"***MASKED***\"" := by decide
example :
    mask_sensitive_body (strOf ("refresh_token\": \"" ++ String.mk (List.replicate 64 'a') ++ "\"tail")) =
    strOf "refresh_token\": \"***MASKED_REFRESH_TOKEN***\"tail" := by decide
example : mask_sensitive_body (strOf "eyJa.eyJ.") = strOf "***JWT_TOKEN***" := by decide
example : mask_sensitive_body [] = [] := by decide

/-- `mask_sensitive_headers`: case-insensitive replacement of sensitive
header values. -/
def sensitiveHeaderKeys : List Str :=
  [strOf "authorization", strOf "cookie", strOf "set-cookie", strOf "x-api-key"]

def mask_sensitive_headers (headers : List (Str × Json)) : List (Str × Json) :=
  headers.map (fun p =>
    if sensitiveHeaderKeys.contains (toLowerStr p.1) then (p.1, .str (strOf "***MASKED***"))
    else p)

/-! ## `parse_ws_content` and `format_json` -/

def strEqb (a b : Str) : Bool := decide (a = b)

/-- `parse_ws_content`: `none` models a `TypeError` crash (`json.loads` on a
truthy non-string), `some none` models Python `None`, `some (some j)` a
successful parse. -/
def parse_ws_content (content : Json) : Option (Option Json) :=
  if !pyTruthy content then some none
  else
    match content with
    | .str s => if strEqb s (strOf "<binary>") then some none else some (json_loads s)
    | _ => none

/-- `format_json(obj, indent, max_length, mask_secrets)`. -/
def format_json (obj : Json) (indent : Nat) (maxLength : Nat) (maskSecrets : Bool) : Str :=
  match obj with
  | .null => strOf "null"
  | _ =>
    let formatted := dumpPretty obj indent 0
    let formatted := if maskSecrets then mask_sensitive_body formatted else formatted
    if formatted.length > maxLength then formatted.take maxLength ++ strOf "\n... (truncated)"
    else formatted

example : format_json (.str (strOf "abc")) 2 500 false = strOf "\"abc\"" := by decide
example : format_json .null 2 0 false = strOf "null" := by decide
example : format_json (.str (List.replicate 30 'x')) 2 10 false =
    strOf "\"xxxxxxxxx\n... (truncated)" := by decide

/-! ## The correlator state and one step of the main loop -/

structure ReqInfo where
  method : Json
  headers : List (Str × Json)
  body : Json
  deriving Repr

structure RespInfo where
  status : Json
  headers : List (Str × Json)
  body : Json
  deriving Repr

structure EndpointInfo where
  methods : List Json
  requests : List ReqInfo
  responses : List RespInfo
  deriving Repr

structure MsgTypeInfo where
  samples : List Json
  count : Nat
  deriving Repr

structure St where
  httpEndpoints : List (Str × EndpointInfo)
  wsMessageTypes : List (Json × MsgTypeInfo)
  wsRequests : List (Json × Json)
  wsResponses : List (Json × Json)
  wsMatchedPairs : List (Json × Json)
  deriving Repr

def initSt : St := ⟨[], [], [], [], []⟩

/-- Association-list lookup with an explicit key-equality test — the model
of a Python `dict` (insertion-ordered, first stored key object kept). -/
def alGet (keq : α → α → Bool) (l : List (α × β)) (k : α) : Option β :=
  (l.find? (fun p => keq p.1 k)).map (·.2)

/-- `d[k] = v`: replace in place, else append. -/
def alSet (keq : α → α → Bool) : List (α × β) → α → β → List (α × β)
  | [], k, v => [(k, v)]
  | (k', v') :: tl, k, v =>
    if keq k' k then (k', v) :: tl else (k', v') :: alSet keq tl k v

/-- `defaultdict` access-and-mutate: apply `f` to the entry (created from
`dflt` and appended if absent). -/
def alUpd (keq : α → α → Bool) (dflt : β) (f : β → β) : List (α × β) → α → List (α × β)
  | [], k => [(k, f dflt)]
  | (k', v') :: tl, k =>
    if keq k' k then (k', f v') :: tl else (k', v') :: alUpd keq dflt f tl k

/-- Python `set.add` on the method set. -/
def pySetAdd (l : List Json) (m : Json) : List Json :=
  if l.any (fun x => pyKeyEq x m) then l else l ++ [m]

/-- `record.get(k, d)` on a decoded object. -/
def recGetD (fields : List (Str × Json)) (k : Str) (d : Json) : Json :=
  match objGet fields k with
  | some v => v
  | none => d

/-- `record.get("type") == "websocket"`. -/
def isWsRecord (fields : List (Str × Json)) : Bool :=
  match objGet fields (strOf "type") with
  | some (.str s) => strEqb s (strOf "websocket")
  | _ => false

/-- `content.get("id")`: a stored `null` is Python `None`, i.e. absent. -/
def wsIdOf (cf : List (Str × Json)) : Option Json :=
  match objGet cf (strOf "id") with
  | some .null => none
  | some v => some v
  | none => none

/-- `record.get(k, {})` followed by `.items()`: `none` models the
`TypeError`/`AttributeError` crash when the stored value is not an object. -/
def headersOf (fields : List (Str × Json)) (k : Str) : Option (List (Str × Json)) :=
  match objGet fields k with
  | none => some []
  | some (.obj h) => some h
  | some _ => none

def startsWith (pre s : Str) : Bool := decide (s.take pre.length = pre)

/-- Remainder after the first occurrence of `sub` (`str.split(sub, 1)[1]`),
`none` when `sub` does not occur. -/
def afterFirstSub (sub : Str) : Str → Option Str
  | [] => none
  | c :: rest =>
    if startsWith sub (c :: rest) then some ((c :: rest).drop sub.length)
    else afterFirstSub sub rest

/-- `url.split("/", 1)[-1]`: the part after the first `/`, or the whole
string when there is none. -/
def afterFirstSlash (s : Str) : Str :=
  match afterFirstSub ['/'] s with
  | some r => r
  | none => s

/-- Path normalization of the HTTP branch:
`"/" + url.split("://", 1)[1].split("/", 1)[-1]` when `"://" in url`,
otherwise the URL unchanged. -/
def extract_path (u : Str) : Str :=
  match afterFirstSub (strOf "://") u with
  | some rest => '/' :: afterFirstSlash rest
  | none => u

example : extract_path (strOf "http://h/a/b") = strOf "/a/b" := by decide
example : extract_path (strOf "http://example.com") = strOf "/example.com" := by decide
example : extract_path (strOf "x") = strOf "x" := by decide
example : extract_path [] = [] := by decide

/-- The dedup signature
`f"{method}:{json.dumps(body, sort_keys=True) if body else ''}"`. -/
def sigOfReq (r : ReqInfo) : Str :=
  pyStrOf r.method ++ ':' :: (if pyTruthy r.body then dumpsSorted r.body else [])

/-- `content.get("type", "unknown")` on the parsed content object. -/
def msgTypeOf (cf : List (Str × Json)) : Json :=
  match objGet cf (strOf "type") with
  | some v => v
  | none => .str (strOf "unknown")

/-- `record.get("direction") == "client"`. -/
def dirIsClient (fields : List (Str × Json)) : Bool :=
  match objGet fields (strOf "direction") with
  | some (.str d) => strEqb d (strOf "client")
  | _ => false

/-- What one decoded record does to the state.  `wsSkip` covers WebSocket
records whose content yields no structured non-empty object. -/
inductive RecAction where
  | wsSkip
  | wsMsg (msgType : Json) (content : Json) (idDir : Option (Json × Bool))
  | http (path : Str) (method : Json) (req : ReqInfo) (resp : RespInfo)
  deriving Repr

/-- Decode one parsed line into an `Action`.  `none` models the uncaught
exceptions of the loop body: `record.get` on a non-object, `json.loads` on
a truthy non-string content, an unhashable message type or correlation id,
a non-string URL, non-object headers, an unhashable method. -/
def decodeWs (fields : List (Str × Json)) : Option RecAction :=
  match parse_ws_content (recGetD fields (strOf "content") .null) with
  | none => none
  | some (some (.obj cf)) =>
    if pyTruthy (.obj cf) then
      if jsonHashable (msgTypeOf cf) then
        match wsIdOf cf with
        | some i =>
          if jsonHashable i then
            some (.wsMsg (msgTypeOf cf) (.obj cf) (some (i, dirIsClient fields)))
          else none
        | none => some (.wsMsg (msgTypeOf cf) (.obj cf) none)
      else none
    else some .wsSkip
  | some _ => some .wsSkip

def decodeHttp (fields : List (Str × Json)) : Option RecAction :=
  match recGetD fields (strOf "url") (.str []) with
  | .str u =>
    let method := recGetD fields (strOf "method") (.str [])
    if jsonHashable method then
      match headersOf fields (strOf "request_headers"),
          headersOf fields (strOf "response_headers") with
      | some reqH, some respH =>
        some (.http (extract_path u) method
          { method := method
            headers := mask_sensitive_headers reqH
            body := recGetD fields (strOf "request_body") .null }
          { status := recGetD fields (strOf "status_code") .null
            headers := mask_sensitive_headers respH
            body := recGetD fields (strOf "response_body") .null })
      | _, _ => none
    else none
  | _ => none

def decodeRecord (record : Json) : Option RecAction :=
  match record with
  | .obj fields => if isWsRecord fields then decodeWs fields else decodeHttp fields
  | _ => none

def applyWs (st : St) (msgType content : Json) (idDir : Option (Json × Bool)) : St :=
  let st1 := { st with
    wsMessageTypes := alUpd pyKeyEq ⟨[], 0⟩
      (fun info =>
        { samples := if info.samples.length < 3 then info.samples ++ [content] else info.samples
          count := info.count + 1 })
      st.wsMessageTypes msgType }
  match idDir with
  | none => st1
  | some (i, true) => { st1 with wsRequests := alSet pyKeyEq st1.wsRequests i content }
  | some (i, false) =>
    let st2 := { st1 with wsResponses := alSet pyKeyEq st1.wsResponses i content }
    match alGet pyKeyEq st.wsRequests i with
    | some reqContent => { st2 with wsMatchedPairs := st2.wsMatchedPairs ++ [(reqContent, content)] }
    | none => st2

def emptyEndpoint : EndpointInfo := ⟨[], [], []⟩

/-- The endpoint entry after one HTTP record: register the method, then
append the example unless its dedup signature is already present. -/
def applyHttpEntry (st : St) (path : Str) (method : Json) (req : ReqInfo) (resp : RespInfo) :
    EndpointInfo :=
  let e := match alGet strEqb st.httpEndpoints path with
    | some e => e
    | none => emptyEndpoint
  let e := { e with methods := pySetAdd e.methods method }
  let sig := sigOfReq req
  if (e.requests.map sigOfReq).contains sig then e
  else { e with requests := e.requests ++ [req], responses := e.responses ++ [resp] }

def applyHttp (st : St) (path : Str) (method : Json) (req : ReqInfo) (resp : RespInfo) : St :=
  { st with
    httpEndpoints := alSet strEqb st.httpEndpoints path (applyHttpEntry st path method req resp) }

def applyAction (st : St) : RecAction → St
  | .wsSkip => st
  | .wsMsg t c idDir => applyWs st t c idDir
  | .http p m req resp => applyHttp st p m req resp

/-- One iteration of the main loop for a decoded record; `none` is an
uncaught exception that aborts the whole run. -/
def processLine (st : St) (record : Json) : Option St :=
  (decodeRecord record).map (applyAction st)

/-- The main loop over decoded records. -/
def foldRecords : List Json → St → Option St
  | [], st => some st
  | r :: tl, st =>
    match processLine st r with
    | none => none
    | some st' => foldRecords tl st'

/-! ## The report renderer -/

def joinWith (sep : Str) : List Str → Str
  | [] => []
  | [x] => x
  | x :: y :: tl => x ++ sep ++ joinWith sep (y :: tl)

def eq80 : Str := List.replicate 80 '='
def dash40 : Str := List.replicate 40 '-'

def strLeProp (a b : Str) : Prop := a ≤ b

instance : DecidableRel strLeProp := fun a b => inferInstanceAs (Decidable (a ≤ b))

/-- Python `sorted` on strings (lexicographic by code point). -/
def sortStrs (l : List Str) : List Str := List.insertionSort strLeProp l

def isStrJson : Json → Bool
  | .str _ => true
  | _ => false

def jsonStrVal : Json → Str
  | .str s => s
  | _ => []

/-- `sorted` over `dict` keys that may be arbitrary scalars.  Modelled only
for all-string key sets; any other non-trivial key set is treated as the
`TypeError` that heterogeneous sorting raises (documented simplification:
an all-numeric key set would actually sort fine in Python). -/
def sortKeysOpt (keys : List Json) : Option (List Json) :=
  if keys.all isStrJson then
    some ((sortStrs (keys.map jsonStrVal)).map Json.str)
  else if keys.length ≤ 1 then some keys
  else none

/-- `", ".join(sorted(methods))`: `TypeError` unless all methods are strings. -/
def joinMethodsOpt (methods : List Json) : Option Str :=
  if methods.all isStrJson then
    some (joinWith (strOf ", ") (sortStrs (methods.map jsonStrVal)))
  else if methods.isEmpty then some []
  else none

/-- The request/response body block of section 1 (the `try`/`except` around
`json.loads` of the masked body). -/
def renderBodyLines (s : Str) : List Str :=
  let masked := mask_sensitive_body s
  match json_loads masked with
  | some b => [format_json b 2 1000 false]
  | none => [masked.take 1000]

/-- One optional body sub-block (`**Request Body:**` / `**Response Body:**`):
`none` models the `TypeError` of masking a truthy non-string body. -/
def renderBodySection (caption : Str) (body : Json) : Option (List Str) :=
  if pyTruthy body then
    match body with
    | .str s => some ([caption, strOf "```json"] ++ renderBodyLines s ++ [strOf "```"])
    | _ => none
  else some []

def renderExample (numbered : Bool) (i : Nat) (req : ReqInfo) (resp : RespInfo) :
    Option (List Str) := do
  let reqBody ← renderBodySection (strOf "**Request Body:**") req.body
  let respBody ← renderBodySection (strOf "**Response Body:**") resp.body
  return (if numbered then [strOf "**Example " ++ natRepr (i + 1) ++ strOf ":**"] else [])
    ++ [strOf "**Request Headers:**", strOf "```json",
        format_json (.obj req.headers) 2 500 false, strOf "```"]
    ++ reqBody
    ++ [strOf "**Response Status:** " ++ pyStrOf resp.status]
    ++ respBody
    ++ [[]]

def renderExamples (numbered : Bool) : Nat → List (ReqInfo × RespInfo) → Option (List Str)
  | _, [] => some []
  | i, (req, resp) :: tl => do
    let here ← renderExample numbered i req resp
    let rest ← renderExamples numbered (i + 1) tl
    return here ++ rest

def renderEndpoint (st : St) (path : Str) : Option (List Str) := do
  let info := match alGet strEqb st.httpEndpoints path with
    | some e => e
    | none => emptyEndpoint
  let methods ← joinMethodsOpt info.methods
  let pairs := info.requests.zip info.responses
  let exs ← renderExamples (decide (info.requests.length > 1)) 0 pairs
  return [strOf "### " ++ methods ++ ' ' :: path, []] ++ exs ++ [dash40, []]

def optFlatMap (f : α → Option (List Str)) : List α → Option (List Str)
  | [] => some []
  | x :: tl => do
    let here ← f x
    let rest ← optFlatMap f tl
    return here ++ rest

def renderSection1 (st : St) : Option (List Str) := do
  let body ← optFlatMap (renderEndpoint st) (sortStrs (st.httpEndpoints.map (·.1)))
  return [eq80, strOf "HTTP ENDPOINTS", eq80, []] ++ body

def renderSample (numbered : Bool) (i : Nat) (sample : Json) : List Str :=
  (if numbered then [strOf "**Sample " ++ natRepr (i + 1) ++ strOf ":**"] else [])
    ++ [strOf "```json", format_json sample 2 800 true, strOf "```", []]

def renderSamples (numbered : Bool) : Nat → List Json → List Str
  | _, [] => []
  | i, s :: tl => renderSample numbered i s ++ renderSamples numbered (i + 1) tl

def renderMsgType (st : St) (t : Json) : List Str :=
  let info := match alGet pyKeyEq st.wsMessageTypes t with
    | some e => e
    | none => ⟨[], 0⟩
  [strOf "### " ++ pyStrOf t ++ strOf " (count: " ++ natRepr info.count ++ strOf ")", []]
    ++ renderSamples (decide (info.samples.length > 1)) 0 info.samples
    ++ [dash40, []]

def renderSection2 (st : St) : Option (List Str) := do
  let keys ← sortKeysOpt (st.wsMessageTypes.map (·.1))
  return [[], eq80, strOf "WEBSOCKET MESSAGE TYPES", eq80, []]
    ++ (keys.map (renderMsgType st)).flatten

/-- `req.get("type", "unknown")` for grouping matched pairs. -/
def contentTypeOf (c : Json) : Json :=
  match c with
  | .obj f => msgTypeOf f
  | _ => .str (strOf "unknown")

def pairsByType (st : St) : List (Json × List (Json × Json)) :=
  st.wsMatchedPairs.foldl
    (fun acc pr => alUpd pyKeyEq [] (fun l => l ++ [pr]) acc (contentTypeOf pr.1)) []

def renderPair (numbered : Bool) (i : Nat) (pr : Json × Json) : List Str :=
  (if numbered then [strOf "**Example " ++ natRepr (i + 1) ++ strOf ":**"] else [])
    ++ [strOf "**Request:**", strOf "```json", format_json pr.1 2 600 true, strOf "```",
        strOf "**Response:**", strOf "```json", format_json pr.2 2 600 true, strOf "```", []]

def renderPairList (numbered : Bool) : Nat → List (Json × Json) → List Str
  | _, [] => []
  | i, pr :: tl => renderPair numbered i pr ++ renderPairList numbered (i + 1) tl

def renderPairGroup (groups : List (Json × List (Json × Json))) (t : Json) : List Str :=
  let pairs := match alGet pyKeyEq groups t with
    | some l => l
    | none => []
  [strOf "### " ++ pyStrOf t ++ strOf " (" ++ natRepr pairs.length ++ strOf " occurrences)", []]
    ++ renderPairList (decide (pairs.length > 1)) 0 (pairs.take 2)
    ++ [dash40, []]

def renderSection3 (st : St) : Option (List Str) := do
  let groups := pairsByType st
  let keys ← sortKeysOpt (groups.map (·.1))
  return [[], eq80, strOf "WEBSOCKET REQUEST/RESPONSE PAIRS", eq80, []]
    ++ (keys.map (renderPairGroup groups)).flatten

/-- `method_counts`: per-method number of endpoints using it. -/
def methodCounts (st : St) : List (Json × Nat) :=
  st.httpEndpoints.foldl
    (fun acc p => p.2.methods.foldl (fun acc m => alUpd pyKeyEq 0 (· + 1) acc m) acc) []

def sampleHasTruthyId (s : Json) : Bool :=
  match s with
  | .obj f =>
    match objGet f (strOf "id") with
    | some v => pyTruthy v
    | none => false
  | _ => false

/-- `client_types`: message types one of whose retained samples carries a
truthy `id`. -/
def clientTypes (st : St) : List Json :=
  (st.wsMessageTypes.filter (fun p => p.2.samples.any sampleHasTruthyId)).map (·.1)

def serverTypeNames : List Str :=
  [strOf "result", strOf "event", strOf "auth_required", strOf "auth_ok", strOf "pong"]

def isServerType (t : Json) : Bool :=
  match t with
  | .str s => serverTypeNames.contains s
  | _ => false

def renderSection4 (st : St) : Option (List Str) := do
  let mcItems ← sortKeysOpt ((methodCounts st).map (·.1))
  let clientSorted ← sortKeysOpt (clientTypes st)
  let allKeysSorted ← sortKeysOpt (st.wsMessageTypes.map (·.1))
  return [[], eq80, strOf "SUMMARY", eq80, [],
      strOf "Total unique HTTP endpoints: " ++ natRepr st.httpEndpoints.length,
      strOf "Total unique WebSocket message types: " ++ natRepr st.wsMessageTypes.length,
      strOf "Total matched WebSocket request/response pairs: " ++ natRepr st.wsMatchedPairs.length,
      [], strOf "**HTTP Endpoints by Method:**"]
    ++ mcItems.map (fun m =>
        strOf "  " ++ pyStrOf m ++ strOf ": " ++
          natRepr (match alGet pyKeyEq (methodCounts st) m with
            | some n => n
            | none => 0))
    ++ [[], strOf "**WebSocket Message Types (client -> server):**"]
    ++ clientSorted.map (fun t => strOf "  - " ++ pyStrOf t)
    ++ [[], strOf "**WebSocket Message Types (server -> client):**"]
    ++ (allKeysSorted.filter isServerType).map (fun t => strOf "  - " ++ pyStrOf t)

/-- The full report text (`output_content`); `none` models a `TypeError`
raised while rendering. -/
def renderReport (st : St) : Option Str := do
  let s1 ← renderSection1 st
  let s2 ← renderSection2 st
  let s3 ← renderSection3 st
  let s4 ← renderSection4 st
  return joinWith ['\n'] (s1 ++ s2 ++ s3 ++ s4)

/-! ## The driver (`main` after the input-existence check) -/

/-- The per-line loop: line number, accumulated warning line numbers,
state.  An uncaught exception aborts the run (`.error`). -/
def runAux : List Str → Nat → List Nat → St → Except Unit (List Nat × St)
  | [], _, ws, st => .ok (ws, st)
  | l :: ls, n, ws, st =>
    let l' := pyStrip l
    if l'.isEmpty then runAux ls (n + 1) ws st
    else
      match json_loads l' with
      | none => runAux ls (n + 1) (ws ++ [n]) st
      | some r =>
        match processLine st r with
        | none => .error ()
        | some st' => runAux ls (n + 1) ws st'

/-- The whole run on the input's lines: the warning line numbers and the
report written on success (exit status 0), `.error` for an uncaught
exception (abnormal termination, no report). -/
def runLines (lines : List Str) : Except Unit (List Nat × Str) :=
  match runAux lines 1 [] initSt with
  | .error () => .error ()
  | .ok (ws, st) =>
    match renderReport st with
    | none => .error ()
    | some rep => .ok (ws, rep)

/-- Line-number-free state fold used to specify `runAux`. -/
def foldLines : List Str → St → Option St
  | [], st => some st
  | l :: ls, st =>
    let l' := pyStrip l
    if l'.isEmpty then foldLines ls st
    else
      match json_loads l' with
      | none => foldLines ls st
      | some r =>
        match processLine st r with
        | none => none
        | some st' => foldLines ls st'

/-- The warning line numbers: 1-based indices of non-blank lines that fail
`json.loads`. -/
def warnIdxs : List Str → Nat → List Nat
  | [], _ => []
  | l :: ls, n =>
    let l' := pyStrip l
    if l'.isEmpty then warnIdxs ls (n + 1)
    else
      match json_loads l' with
      | none => n :: warnIdxs ls (n + 1)
      | some _ => warnIdxs ls (n + 1)

/-! ## Key-equality and association-list lemmas -/

/-- Python key equality factors through this normalization
(`True`/`False` hash like `1`/`0`). -/
def keyNorm : Json → Json
  | .bool b => .num (if b then 1 else 0)
  | j => j

theorem pyKeyEq_iff {a b : Json} :
    pyKeyEq a b = true ↔ jsonHashable a = true ∧ jsonHashable b = true ∧ keyNorm a = keyNorm b := by
  cases a <;> cases b <;> simp [pyKeyEq, jsonHashable, keyNorm]
  rename_i x y
  cases x <;> cases y <;> simp

theorem pyKeyEq_symm (a b : Json) : pyKeyEq a b = pyKeyEq b a := by
  by_cases h : pyKeyEq a b = true
  · have h' := pyKeyEq_iff.mp h
    exact h.trans (pyKeyEq_iff.mpr ⟨h'.2.1, h'.1, h'.2.2.symm⟩).symm
  · by_cases h2 : pyKeyEq b a = true
    · have h' := pyKeyEq_iff.mp h2
      exact absurd (pyKeyEq_iff.mpr ⟨h'.2.1, h'.1, h'.2.2.symm⟩) h
    · simp [Bool.eq_false_iff.mpr h, Bool.eq_false_iff.mpr h2]

theorem pyKeyEq_trans {a b c : Json} (h1 : pyKeyEq a b = true) (h2 : pyKeyEq b c = true) :
    pyKeyEq a c = true := by
  have h1' := pyKeyEq_iff.mp h1
  have h2' := pyKeyEq_iff.mp h2
  exact pyKeyEq_iff.mpr ⟨h1'.1, h2'.2.1, h1'.2.2.trans h2'.2.2⟩

theorem pyKeyEq_refl {a : Json} (h : jsonHashable a = true) : pyKeyEq a a = true :=
  pyKeyEq_iff.mpr ⟨h, h, rfl⟩

theorem strEqb_symm (a b : Str) : strEqb a b = strEqb b a := by
  simp [strEqb, eq_comm]

theorem strEqb_trans {a b c : Str} (h1 : strEqb a b = true) (h2 : strEqb b c = true) :
    strEqb a c = true := by
  simp_all [strEqb]

section AssocLemmas

variable {κ β : Type} (keq : κ → κ → Bool)

theorem alGet_nil (k : κ) : alGet keq ([] : List (κ × β)) k = none := rfl

theorem alGet_cons (k1 : κ) (v1 : β) (tl : List (κ × β)) (k : κ) :
    alGet keq ((k1, v1) :: tl) k = if keq k1 k then some v1 else alGet keq tl k := by
  simp only [alGet, List.find?]
  cases h : keq k1 k <;> simp [h]

variable (hsymm : ∀ a b, keq a b = keq b a)
  (htrans : ∀ a b c, keq a b = true → keq b c = true → keq a c = true)

include hsymm htrans in
theorem alGet_alSet_same (l : List (κ × β)) (k k' : κ) (v : β) (hk : keq k k' = true) :
    alGet keq (alSet keq l k v) k' = some v := by
  induction l with
  | nil => simp [alSet, alGet_cons, hk]
  | cons p tl ih =>
    obtain ⟨k1, v1⟩ := p
    by_cases h1 : keq k1 k = true
    · simp [alSet, h1, alGet_cons, htrans _ _ _ h1 hk]
    · have h2 : keq k1 k' = false := by
        by_contra hc
        have hc' : keq k1 k' = true := by revert hc; cases keq k1 k' <;> simp
        have : keq k1 k = true := htrans _ _ _ hc' (by rw [hsymm]; exact hk)
        exact h1 this
      simp [alSet, h1, alGet_cons, h2, ih]

include hsymm htrans in
theorem alGet_alSet_ne (l : List (κ × β)) (k k' : κ) (v : β) (hk : keq k k' = false) :
    alGet keq (alSet keq l k v) k' = alGet keq l k' := by
  induction l with
  | nil => simp [alSet, alGet_cons, alGet_nil, hk]
  | cons p tl ih =>
    obtain ⟨k1, v1⟩ := p
    by_cases h1 : keq k1 k = true
    · have h2 : keq k1 k' = false := by
        by_contra hc
        have hc' : keq k1 k' = true := by revert hc; cases keq k1 k' <;> simp
        have : keq k k' = true := htrans _ _ _ (by rw [hsymm]; exact h1) hc'
        rw [this] at hk; cases hk
      simp [alSet, h1, alGet_cons, h2]
    · simp only [alSet, if_neg h1, alGet_cons, ih]

include hsymm htrans in
theorem alGet_alUpd_same (l : List (κ × β)) (k k' : κ) (d : β) (f : β → β)
    (hk : keq k k' = true) :
    alGet keq (alUpd keq d f l k) k' =
      some (f (match alGet keq l k with | some v => v | none => d)) := by
  induction l with
  | nil => simp [alUpd, alGet_cons, alGet_nil, hk]
  | cons p tl ih =>
    obtain ⟨k1, v1⟩ := p
    by_cases h1 : keq k1 k = true
    · simp [alUpd, h1, alGet_cons, htrans _ _ _ h1 hk, hsymm k1 k ▸ h1]
    · have h2 : keq k1 k' = false := by
        by_contra hc
        have hc' : keq k1 k' = true := by revert hc; cases keq k1 k' <;> simp
        exact h1 (htrans _ _ _ hc' (by rw [hsymm]; exact hk))
    
      simp [alUpd, h1, alGet_cons, h2, ih]

include hsymm htrans in
theorem alGet_alUpd_ne (l : List (κ × β)) (k k' : κ) (d : β) (f : β → β)
    (hk : keq k k' = false) :
    alGet keq (alUpd keq d f l k) k' = alGet keq l k' := by
  induction l with
  | nil =>
    simp [alUpd, alGet_cons, alGet_nil, hk]
  | cons p tl ih =>
    obtain ⟨k1, v1⟩ := p
    by_cases h1 : keq k1 k = true
    · have h2 : keq k1 k' = false := by
        by_contra hc
        have hc' : keq k1 k' = true := by revert hc; cases keq k1 k' <;> simp
        have : keq k k' = true := htrans _ _ _ (by rw [hsymm]; exact h1) hc'
        rw [this] at hk; cases hk
      simp [alUpd, h1, alGet_cons, h2]
    · simp only [alUpd, if_neg h1, alGet_cons, ih]

theorem alSet_keys (l : List (κ × β)) (k : κ) (v : β) :
    ∀ p ∈ alSet keq l k v, p.1 ∈ l.map Prod.fst ∨ p.1 = k := by
  induction l with
  | nil => intro p hp; simp [alSet] at hp; simp [hp]
  | cons q tl ih =>
    obtain ⟨k1, v1⟩ := q
    intro p hp
    by_cases h1 : keq k1 k = true
    · rw [alSet, if_pos h1] at hp
      rcases List.mem_cons.mp hp with h | h
      · subst h; left; exact List.mem_cons_self _ _
      · left
        rw [List.map_cons]
        exact List.mem_cons_of_mem _ (List.mem_map_of_mem Prod.fst h)
    · simp only [alSet, if_neg h1, List.mem_cons] at hp
      rcases hp with h | h
      · subst h; left; rw [List.map_cons]; exact List.mem_cons_self _ _
      · rcases ih p h with hx | hx
        · left; rw [List.map_cons]; exact List.mem_cons_of_mem _ hx
        · right; exact hx

theorem alUpd_keys (l : List (κ × β)) (k : κ) (d : β) (f : β → β) :
    ∀ p ∈ alUpd keq d f l k, p.1 ∈ l.map Prod.fst ∨ p.1 = k := by
  induction l with
  | nil => intro p hp; simp [alUpd] at hp; simp [hp]
  | cons q tl ih =>
    obtain ⟨k1, v1⟩ := q
    intro p hp
    by_cases h1 : keq k1 k = true
    · rw [alUpd, if_pos h1] at hp
      rcases List.mem_cons.mp hp with h | h
      · subst h; left; exact List.mem_cons_self _ _
      · left
        rw [List.map_cons]
        exact List.mem_cons_of_mem _ (List.mem_map_of_mem Prod.fst h)
    · simp only [alUpd, if_neg h1, List.mem_cons] at hp
      rcases hp with h | h
      · subst h; left; rw [List.map_cons]; exact List.mem_cons_self _ _
      · rcases ih p h with hx | hx
        · left; rw [List.map_cons]; exact List.mem_cons_of_mem _ hx
        · right; exact hx

end AssocLemmas

/-! ## C10: non-client direction is treated as server origin -/

theorem dirIsClient_eq_false {fields : List (Str × Json)}
    (h : objGet fields (strOf "direction") ≠ some (.str (strOf "client"))) :
    dirIsClient fields = false := by
  unfold dirIsClient
  cases hg : objGet fields (strOf "direction") with
  | none => rfl
  | some v =>
    cases v with
    | str d =>
      simp only [strEqb, decide_eq_false_iff_not]
      intro hd
      exact h (by rw [hg, hd])
    | null => rfl
    | bool b => rfl
    | num n => rfl
    | arr l => rfl
    | obj f => rfl

/-- C10: a WebSocket event whose parsed content has a non-null, hashable
correlation id and whose `direction` field is anything but exactly
`"client"` (including missing) is recorded in the server mapping, and it
completes a matched pair exactly when the id is in the client mapping. -/
theorem C10_nonclient_is_server
    (st : St) (fields cf : List (Str × Json)) (i : Json)
    (hws : isWsRecord fields = true)
    (hcontent : parse_ws_content (recGetD fields (strOf "content") .null) = some (some (.obj cf)))
    (hne : pyTruthy (.obj cf) = true)
    (htype : jsonHashable (msgTypeOf cf) = true)
    (hid : wsIdOf cf = some i)
    (hih : jsonHashable i = true)
    (hdir : objGet fields (strOf "direction") ≠ some (.str (strOf "client"))) :
    ∃ st', processLine st (.obj fields) = some st' ∧
      st'.wsRequests = st.wsRequests ∧
      st'.wsResponses = alSet pyKeyEq st.wsResponses i (.obj cf) ∧
      st'.wsMatchedPairs = st.wsMatchedPairs ++
        (match alGet pyKeyEq st.wsRequests i with
         | some rc => [(rc, .obj cf)]
         | none => []) := by
  have hdir' := dirIsClient_eq_false hdir
  have hdec : decodeRecord (.obj fields) =
      some (.wsMsg (msgTypeOf cf) (.obj cf) (some (i, false))) := by
    simp [decodeRecord, decodeWs, hws, hcontent, hne, htype, hid, hih, hdir']
  refine ⟨applyWs st (msgTypeOf cf) (.obj cf) (some (i, false)), ?_, ?_, ?_, ?_⟩
  · simp [processLine, hdec, applyAction]
  · cases halg : alGet pyKeyEq st.wsRequests i <;> simp [applyWs, halg]
  · cases halg : alGet pyKeyEq st.wsRequests i <;> simp [applyWs, halg]
  · cases halg : alGet pyKeyEq st.wsRequests i <;> simp [applyWs, halg]

def c10fields : List (Str × Json) :=
  [(strOf "type", .str (strOf "websocket")),
   (strOf "content", .str (strOf "\x7b\"type\": \"pong\", \"id\": 1\x7d"))]

def c10cf : List (Str × Json) := [(strOf "type", .str (strOf "pong")), (strOf "id", .num 1)]

theorem C10_nonclient_is_server_witness :
    ∃ st', processLine initSt (.obj c10fields) = some st' ∧
      st'.wsRequests = initSt.wsRequests ∧
      st'.wsResponses = alSet pyKeyEq initSt.wsResponses (.num 1) (.obj c10cf) ∧
      st'.wsMatchedPairs = initSt.wsMatchedPairs ++
        (match alGet pyKeyEq initSt.wsRequests (.num 1) with
         | some rc => [(rc, .obj c10cf)]
         | none => []) :=
  C10_nonclient_is_server initSt c10fields c10cf (.num 1)
    rfl rfl rfl rfl rfl rfl (fun h => Option.noConfusion h)

/-! ## C6: truncation appends the literal marker and yields an exact length -/

/-- The pretty-printed (and, for the WebSocket sections, redacted) text that
`format_json` measures against the limit. -/
def formattedText (obj : Json) (indent : Nat) (maskSecrets : Bool) : Str :=
  if maskSecrets then mask_sensitive_body (dumpPretty obj indent 0) else dumpPretty obj indent 0

theorem format_json_of_over (obj : Json) (indent maxLength : Nat) (maskSecrets : Bool)
    (hnull : obj ≠ .null)
    (hover : (formattedText obj indent maskSecrets).length > maxLength) :
    format_json obj indent maxLength maskSecrets =
      (formattedText obj indent maskSecrets).take maxLength ++ strOf "\n... (truncated)" := by
  cases obj <;> simp_all [format_json, formattedText]

theorem mask_null_str : mask_sensitive_body (strOf "null") = strOf "null" := by decide

/-- C6: whenever the pretty-printed, redacted body text exceeds the section
limit (all section limits are ≥ 4), the rendered output has exactly
`limit + len("\n... (truncated)")` characters and ends with that suffix. -/
theorem C6_truncation (obj : Json) (indent maxLength : Nat) (maskSecrets : Bool)
    (hlim : 4 ≤ maxLength)
    (hover : (formattedText obj indent maskSecrets).length > maxLength) :
    (format_json obj indent maxLength maskSecrets).length =
        maxLength + (strOf "\n... (truncated)").length ∧
    ∃ pre, format_json obj indent maxLength maskSecrets = pre ++ strOf "\n... (truncated)" := by
  have hnull : obj ≠ .null := by
    intro h
    subst h
    have : formattedText .null indent maskSecrets = strOf "null" := by
      cases maskSecrets <;> simp [formattedText, dumpPretty, mask_null_str]
    rw [this] at hover
    simp [strOf] at hover
    omega
  rw [format_json_of_over obj indent maxLength maskSecrets hnull hover]
  constructor
  · rw [List.length_append, List.length_take]
    omega
  · exact ⟨_, rfl⟩

theorem C6_truncation_witness :
    (format_json (.str (List.replicate 30 'x')) 2 10 false).length =
        10 + (strOf "\n... (truncated)").length ∧
    ∃ pre, format_json (.str (List.replicate 30 'x')) 2 10 false =
        pre ++ strOf "\n... (truncated)" :=
  C6_truncation (.str (List.replicate 30 'x')) 2 10 false (by omega) (by decide)

/-! ## C5: the truncation marker is NOT appended on the raw fallback path -/

theorem getLast?_append_right (l1 l2 : Str) (h : l2 ≠ []) :
    (l1 ++ l2).getLast? = l2.getLast? :=
  List.getLast?_append_of_ne_nil l1 h

set_option maxRecDepth 100000

/-- C5 counterexample: a 1001-character body that fails structured parsing
is rendered as its first 1000 characters with NO `"... (truncated)"`
suffix, although it was cut at the section limit — the source appends the
marker only on the pretty-printed path (`masked_body[:1000]` in the
`except` arm appends nothing). -/
theorem C5_counterexample :
    (mask_sensitive_body (List.replicate 1001 'x')).length > 1000 ∧
    json_loads (mask_sensitive_body (List.replicate 1001 'x')) = none ∧
    renderBodyLines (List.replicate 1001 'x') = [List.replicate 1000 'x'] ∧
    ∀ pre, List.replicate 1000 'x' ≠ pre ++ strOf "\n... (truncated)" := by
  refine ⟨by decide, by rfl, by decide, ?_⟩
  intro pre h
  have h1 : (List.replicate 1000 'x').getLast? = some 'x' := by decide
  have h2 : (pre ++ strOf "\n... (truncated)").getLast? = some ')' := by
    rw [getLast?_append_right pre _ (by decide)]
    decide
  rw [h] at h1
  rw [h1] at h2
  cases h2

/-- C5 amended: the `"... (truncated)"` suffix is appended whenever the
pretty-printed structured rendering is cut at the limit, but a body that
fails structured parsing is rendered as the first 1000 characters of the
masked raw text with no suffix appended. -/
theorem C5_amended (s : Str) :
    (json_loads (mask_sensitive_body s) = none →
      renderBodyLines s = [(mask_sensitive_body s).take 1000]) ∧
    (∀ b, json_loads (mask_sensitive_body s) = some b →
      renderBodyLines s = [format_json b 2 1000 false] ∧
      ((formattedText b 2 false).length > 1000 →
        ∃ pre, format_json b 2 1000 false = pre ++ strOf "\n... (truncated)")) := by
  constructor
  · intro h
    simp [renderBodyLines, h]
  · intro b hb
    refine ⟨by simp [renderBodyLines, hb], ?_⟩
    intro hover
    have hnull : b ≠ .null := by
      intro hn
      subst hn
      have : formattedText .null 2 false = strOf "null" := by
        simp [formattedText, dumpPretty]
      rw [this] at hover
      simp [strOf] at hover
    rw [format_json_of_over b 2 1000 false hnull hover]
    exact ⟨_, rfl⟩

theorem C5_amended_witness :
    renderBodyLines (List.replicate 1001 'x') =
      [(mask_sensitive_body (List.replicate 1001 'x')).take 1000] :=
  (C5_amended (List.replicate 1001 'x')).1 (by rfl)

/-! ## C7: endpoint keys and the path normalization -/

theorem applyWs_httpEndpoints (st : St) (t c : Json) (d : Option (Json × Bool)) :
    (applyWs st t c d).httpEndpoints = st.httpEndpoints := by
  unfold applyWs
  match d with
  | none => rfl
  | some (i, true) => rfl
  | some (i, false) =>
    cases halg : alGet pyKeyEq st.wsRequests i <;> simp [halg]

theorem decodeWs_no_http {fields : List (Str × Json)} {a : RecAction}
    (h : decodeWs fields = some a) :
    ∀ p m rq rs, a ≠ .http p m rq rs := by
  unfold decodeWs at h
  split at h
  · cases h
  · split at h
    · split at h
      · split at h
        · split at h
          · cases h; intro p m rq rs hne; cases hne
          · cases h
        · cases h; intro p m rq rs hne; cases hne
      · cases h
    · cases h; intro p m rq rs hne; cases hne
  · cases h; intro p m rq rs hne; cases hne

theorem decodeHttp_inv {fields : List (Str × Json)} {a : RecAction}
    (h : decodeHttp fields = some a) :
    ∃ u m rq rs, recGetD fields (strOf "url") (.str []) = .str u ∧
      a = .http (extract_path u) m rq rs := by
  unfold decodeHttp at h
  split at h
  next u hequ =>
    dsimp only at h
    by_cases hjm : jsonHashable (recGetD fields (strOf "method") (Json.str [])) = true
    · simp only [hjm, if_true] at h
      split at h
      · cases h
        exact ⟨u, _, _, _, hequ, rfl⟩
      · cases h
    · simp only [Bool.not_eq_true] at hjm
      simp only [hjm, Bool.false_eq_true, if_false] at h
      cases h
  next => cases h

/-- C7 counterexample: a record whose URL contains no `"://"` and does not
start with `/` yields an endpoint key without a leading slash. -/
theorem C7_counterexample :
    ∃ st, foldRecords
        [.obj [(strOf "url", .str (strOf "x")), (strOf "method", .str (strOf "GET"))]]
        initSt = some st ∧
      st.httpEndpoints.map Prod.fst = [strOf "x"] ∧
      ∀ t, strOf "x" ≠ '/' :: t := by
  refine ⟨_, rfl, by decide, ?_⟩
  intro t h
  injection h with h1 _
  exact absurd h1 (by decide)

/-- C7 amended: a URL containing `"://"` yields the key
`"/" + part after the first "/" following "://"` (so it always begins with
a slash, but the host is NOT stripped when no slash follows it); a URL
without `"://"` is used verbatim as the key and need not begin with a
slash.  Every key of the endpoint map is `extract_path` of the `url` field
of some processed record. -/
theorem C7_amended :
    (∀ u r, afterFirstSub (strOf "://") u = some r →
      extract_path u = '/' :: afterFirstSlash r) ∧
    (∀ u, afterFirstSub (strOf "://") u = none → extract_path u = u) ∧
    (∀ recs st, foldRecords recs initSt = some st →
      ∀ p, p ∈ st.httpEndpoints.map Prod.fst →
        ∃ r, r ∈ recs ∧ ∃ fields u, r = .obj fields ∧
          recGetD fields (strOf "url") (.str []) = .str u ∧ p = extract_path u) := by
  have keyProv : ∀ (recs : List Json) (st0 st : St), foldRecords recs st0 = some st →
      ∀ p, p ∈ st.httpEndpoints.map Prod.fst →
        p ∈ st0.httpEndpoints.map Prod.fst ∨
        ∃ r, r ∈ recs ∧ ∃ fields u, r = .obj fields ∧
          recGetD fields (strOf "url") (.str []) = .str u ∧ p = extract_path u := by
    intro recs
    induction recs with
    | nil =>
      intro st0 st h p hp
      rw [show st = st0 from (Option.some.inj h).symm] at hp
      exact Or.inl hp
    | cons r tl ih =>
      intro st0 st h p hp
      cases hd : decodeRecord r with
      | none => simp [foldRecords, processLine, hd] at h
      | some a =>
        have h1 : foldRecords tl (applyAction st0 a) = some st := by
          simpa [foldRecords, processLine, hd] using h
        rcases ih _ _ h1 p hp with hin | ⟨r', hr', rest⟩
        · cases a with
          | wsSkip => exact Or.inl hin
          | wsMsg t c idir =>
            rw [show (applyAction st0 (.wsMsg t c idir)).httpEndpoints = st0.httpEndpoints from
              applyWs_httpEndpoints st0 t c idir] at hin
            exact Or.inl hin
          | http pth m rq rs =>
            have : (applyAction st0 (.http pth m rq rs)).httpEndpoints =
                alSet strEqb st0.httpEndpoints pth (applyHttpEntry st0 pth m rq rs) := rfl
            rw [this] at hin
            obtain ⟨pr, hpr, hfst⟩ := List.mem_map.mp hin
            rcases alSet_keys strEqb _ _ _ pr hpr with hold | hnew
            · exact Or.inl (hfst ▸ hold)
            · right
              have hr : r ∈ r :: tl := List.mem_cons_self _ _
              cases r with
              | obj fields =>
                by_cases hws : isWsRecord fields
                · exfalso
                  have hws' : decodeWs fields = some (.http pth m rq rs) := by
                    simpa [decodeRecord, hws] using hd
                  exact decodeWs_no_http hws' pth m rq rs rfl
                · have hh : decodeHttp fields = some (.http pth m rq rs) := by
                    simpa [decodeRecord, hws] using hd
                  obtain ⟨u, m', rq', rs', hurl, heq⟩ := decodeHttp_inv hh
                  cases heq
                  exact ⟨.obj fields, hr, fields, u, rfl, hurl, hfst ▸ hnew ▸ rfl⟩
              | null => simp [decodeRecord] at hd
              | bool b => simp [decodeRecord] at hd
              | num n => simp [decodeRecord] at hd
              | str s => simp [decodeRecord] at hd
              | arr l => simp [decodeRecord] at hd
        · exact Or.inr ⟨r', List.mem_cons_of_mem _ hr', rest⟩
  refine ⟨?_, ?_, ?_⟩
  · intro u r h
    simp [extract_path, h]
  · intro u h
    simp [extract_path, h]
  · intro recs st h p hp
    rcases keyProv recs initSt st h p hp with hin | hex
    · simp [initSt] at hin
    · exact hex

theorem C7_amended_witness :
    ∃ r, r ∈ [Json.obj [(strOf "url", .str (strOf "x")), (strOf "method", .str (strOf "GET"))]] ∧
      ∃ fields u, r = .obj fields ∧
        recGetD fields (strOf "url") (.str []) = .str u ∧ strOf "x" = extract_path u := by
  refine C7_amended.2.2
    [Json.obj [(strOf "url", .str (strOf "x")), (strOf "method", .str (strOf "GET"))]]
    _ rfl (strOf "x") (by decide)

/-! ## C4: message-type counts and retained samples -/

/-- The parsed content of record `r` when it is a WebSocket message counted
under type `t`. -/
def wsHitOf (t : Json) (r : Json) : Option Json :=
  match decodeRecord r with
  | some (.wsMsg mt c _) => if pyKeyEq mt t then some c else none
  | _ => none

def mtCount (st : St) (t : Json) : Nat :=
  match alGet pyKeyEq st.wsMessageTypes t with
  | some i => i.count
  | none => 0

def mtSamples (st : St) (t : Json) : List Json :=
  match alGet pyKeyEq st.wsMessageTypes t with
  | some i => i.samples
  | none => []

theorem alGet_congr {κ β : Type} (keq : κ → κ → Bool)
    (hsymm : ∀ a b, keq a b = keq b a)
    (htrans : ∀ a b c, keq a b = true → keq b c = true → keq a c = true)
    (l : List (κ × β)) {k k' : κ} (hk : keq k k' = true) :
    alGet keq l k = alGet keq l k' := by
  induction l with
  | nil => rfl
  | cons p tl ih =>
    obtain ⟨k1, v1⟩ := p
    rw [alGet_cons, alGet_cons]
    have : keq k1 k = keq k1 k' := by
      by_cases h1 : keq k1 k = true
      · rw [h1, htrans _ _ _ h1 hk]
      · by_cases h2 : keq k1 k' = true
        · exact absurd (htrans _ _ _ h2 (by rw [hsymm]; exact hk)) h1
        · rw [Bool.eq_false_iff.mpr h1, Bool.eq_false_iff.mpr h2]
    rw [this, ih]

theorem applyWs_msgTypes (st : St) (t c : Json) (d : Option (Json × Bool)) :
    (applyWs st t c d).wsMessageTypes =
      alUpd pyKeyEq ⟨[], 0⟩
        (fun info =>
          { samples := if info.samples.length < 3 then info.samples ++ [c] else info.samples
            count := info.count + 1 })
        st.wsMessageTypes t := by
  unfold applyWs
  match d with
  | none => rfl
  | some (i, true) => rfl
  | some (i, false) =>
    cases halg : alGet pyKeyEq st.wsRequests i <;> simp [halg]

/-- One characterization of the whole `ws_message_types` accumulation. -/
theorem fold_msgTypes (recs : List Json) : ∀ (st0 st : St),
    foldRecords recs st0 = some st → ∀ t,
    mtCount st t = mtCount st0 t + (recs.filterMap (wsHitOf t)).length ∧
    ((mtSamples st0 t).length ≤ 3 →
      mtSamples st t = (mtSamples st0 t ++ recs.filterMap (wsHitOf t)).take 3) ∧
    ((alGet pyKeyEq st.wsMessageTypes t).isSome ↔
      (alGet pyKeyEq st0.wsMessageTypes t).isSome ∨ recs.filterMap (wsHitOf t) ≠ []) := by
  induction recs with
  | nil =>
    intro st0 st h t
    rw [show st = st0 from (Option.some.inj h).symm]
    simp
  | cons r tl ih =>
    intro st0 st h t
    cases hd : decodeRecord r with
    | none => simp [foldRecords, processLine, hd] at h
    | some a =>
      have h1 : foldRecords tl (applyAction st0 a) = some st := by
        simpa [foldRecords, processLine, hd] using h
      have hstep := ih (applyAction st0 a) st h1 t
      have hhit : tl.filterMap (wsHitOf t) = tl.filterMap (wsHitOf t) := rfl
      cases a with
      | wsSkip =>
        have hr : wsHitOf t r = none := by simp [wsHitOf, hd]
        simpa [List.filterMap_cons, hr] using hstep
      | http p m rq rs =>
        have hr : wsHitOf t r = none := by simp [wsHitOf, hd]
        have : (applyAction st0 (.http p m rq rs)).wsMessageTypes = st0.wsMessageTypes := rfl
        simp only [List.filterMap_cons, hr] at hstep ⊢
        rw [show mtCount (applyAction st0 (.http p m rq rs)) t = mtCount st0 t from rfl,
            show mtSamples (applyAction st0 (.http p m rq rs)) t = mtSamples st0 t from rfl,
            this] at hstep
        exact hstep
      | wsMsg mt c idir =>
        have hmts := applyWs_msgTypes st0 mt c idir
        by_cases hk : pyKeyEq mt t = true
        · have hr : wsHitOf t r = some c := by simp [wsHitOf, hd, hk]
          have hget : alGet pyKeyEq (applyAction st0 (.wsMsg mt c idir)).wsMessageTypes t =
              some { samples :=
                       if (mtSamples st0 t).length < 3 then mtSamples st0 t ++ [c]
                       else mtSamples st0 t
                     count := mtCount st0 t + 1 } := by
            rw [show (applyAction st0 (.wsMsg mt c idir)).wsMessageTypes =
                  alUpd pyKeyEq ⟨[], 0⟩ _ st0.wsMessageTypes mt from hmts]
            rw [alGet_alUpd_same pyKeyEq pyKeyEq_symm (fun a b c => pyKeyEq_trans) _ _ _ _ _ hk]
            rw [alGet_congr pyKeyEq pyKeyEq_symm (fun a b c => pyKeyEq_trans) _ hk]
            unfold mtSamples mtCount
            cases halg : alGet pyKeyEq st0.wsMessageTypes t <;> simp [halg]
          rcases hstep with ⟨hc, hs, hp⟩
          rw [show mtCount (applyAction st0 (.wsMsg mt c idir)) t =
                mtCount st0 t + 1 by simp only [mtCount]; rw [hget]; rfl] at hc
          rw [show mtSamples (applyAction st0 (.wsMsg mt c idir)) t =
                (if (mtSamples st0 t).length < 3 then mtSamples st0 t ++ [c]
                 else mtSamples st0 t) by simp only [mtSamples]; rw [hget]; rfl] at hs
          refine ⟨?_, ?_, ?_⟩
          · simp only [List.filterMap_cons, hr, List.length_cons]
            omega
          · intro hlen
            simp only [List.filterMap_cons, hr]
            by_cases hlt : (mtSamples st0 t).length < 3
            · rw [hs (by rw [if_pos hlt]; simp; omega)]
              rw [if_pos hlt, List.append_assoc]
              rfl
            · have h3 : (mtSamples st0 t).length = 3 := by omega
              rw [hs (by rw [if_neg hlt]; omega)]
              rw [if_neg hlt]
              rw [List.take_append_of_le_length (by omega),
                  List.take_append_of_le_length (by omega)]
          · simp only [List.filterMap_cons, hr]
            constructor
            · intro _
              right
              simp
            · intro _
              exact hp.mpr (Or.inl (by rw [hget]; rfl))
        · have hkf : pyKeyEq mt t = false := by
            revert hk; cases pyKeyEq mt t <;> simp
          have hr : wsHitOf t r = none := by simp [wsHitOf, hd, hkf]
          have hsame : alGet pyKeyEq (applyAction st0 (.wsMsg mt c idir)).wsMessageTypes t =
              alGet pyKeyEq st0.wsMessageTypes t := by
            rw [show (applyAction st0 (.wsMsg mt c idir)).wsMessageTypes =
                  alUpd pyKeyEq ⟨[], 0⟩ _ st0.wsMessageTypes mt from hmts]
            exact alGet_alUpd_ne pyKeyEq pyKeyEq_symm (fun a b c => pyKeyEq_trans) _ _ _ _ _ hkf
          rcases hstep with ⟨hc, hs, hp⟩
          rw [show mtCount (applyAction st0 (.wsMsg mt c idir)) t = mtCount st0 t by
                unfold mtCount; rw [hsame]] at hc
          rw [show mtSamples (applyAction st0 (.wsMsg mt c idir)) t = mtSamples st0 t by
                unfold mtSamples; rw [hsame]] at hs
          rw [hsame] at hp
          simp only [List.filterMap_cons, hr]
          exact ⟨hc, hs, hp⟩

/-- C4 counterexample: a WebSocket event whose content is `"{}"` parses to
a structured key-value object (so, per the claim, it should be counted
under the defaulted type `"unknown"`), but the empty dict is falsy in
Python, so the source skips it entirely: no count, no sample, no entry. -/
theorem C4_counterexample :
    json_loads (strOf "\x7b\x7d") = some (.obj []) ∧
    foldRecords
        [.obj [(strOf "type", .str (strOf "websocket")),
               (strOf "content", .str (strOf "\x7b\x7d"))]]
        initSt = some initSt ∧
    mtCount initSt (.str (strOf "unknown")) = 0 ∧
    (alGet pyKeyEq initSt.wsMessageTypes (.str (strOf "unknown"))).isSome = false :=
  ⟨rfl, rfl, rfl, rfl⟩

/-- C4 amended: for every message type, the recorded count equals the
number of events whose text content parses as a NON-EMPTY structured
key-value object carrying that type (type defaulting to "unknown" when
absent), and the retained samples are exactly the first `min(3, count)`
such parsed objects in input order (an entry exists iff the count is
positive). -/
theorem C4_amended (recs : List Json) (st : St) (t : Json)
    (h : foldRecords recs initSt = some st) :
    mtCount st t = (recs.filterMap (wsHitOf t)).length ∧
    mtSamples st t = (recs.filterMap (wsHitOf t)).take 3 ∧
    ((alGet pyKeyEq st.wsMessageTypes t).isSome ↔ recs.filterMap (wsHitOf t) ≠ []) := by
  have hmain := fold_msgTypes recs initSt st h t
  rcases hmain with ⟨hc, hs, hp⟩
  refine ⟨?_, ?_, ?_⟩
  · simpa [mtCount, initSt, alGet_nil] using hc
  · have := hs (by simp [mtSamples, initSt, alGet_nil])
    simpa [mtSamples, initSt, alGet_nil] using this
  · simpa [initSt, alGet_nil] using hp

def c4rec (cstr : String) : Json :=
  .obj [(strOf "type", .str (strOf "websocket")), (strOf "content", .str (strOf cstr))]

theorem C4_amended_witness :
    mtCount
        (St.mk [] [(.str (strOf "ping"),
          { samples := [.obj [(strOf "type", .str (strOf "ping"))],
                        .obj [(strOf "type", .str (strOf "ping"))],
                        .obj [(strOf "type", .str (strOf "ping"))]]
            count := 4 })] [] [] [])
        (.str (strOf "ping")) =
      (List.filterMap (wsHitOf (.str (strOf "ping")))
        [c4rec "\x7b\"type\": \"ping\"\x7d", c4rec "\x7b\"type\": \"ping\"\x7d",
         c4rec "\x7b\"type\": \"ping\"\x7d", c4rec "\x7b\"type\": \"ping\"\x7d"]).length ∧
    mtSamples
        (St.mk [] [(.str (strOf "ping"),
          { samples := [.obj [(strOf "type", .str (strOf "ping"))],
                        .obj [(strOf "type", .str (strOf "ping"))],
                        .obj [(strOf "type", .str (strOf "ping"))]]
            count := 4 })] [] [] [])
        (.str (strOf "ping")) =
      (List.filterMap (wsHitOf (.str (strOf "ping")))
        [c4rec "\x7b\"type\": \"ping\"\x7d", c4rec "\x7b\"type\": \"ping\"\x7d",
         c4rec "\x7b\"type\": \"ping\"\x7d", c4rec "\x7b\"type\": \"ping\"\x7d"]).take 3 ∧
    ((alGet pyKeyEq
        (St.mk [] [(.str (strOf "ping"),
          { samples := [.obj [(strOf "type", .str (strOf "ping"))],
                        .obj [(strOf "type", .str (strOf "ping"))],
                        .obj [(strOf "type", .str (strOf "ping"))]]
            count := 4 })] [] [] []).wsMessageTypes
        (.str (strOf "ping"))).isSome ↔
      List.filterMap (wsHitOf (.str (strOf "ping")))
        [c4rec "\x7b\"type\": \"ping\"\x7d", c4rec "\x7b\"type\": \"ping\"\x7d",
         c4rec "\x7b\"type\": \"ping\"\x7d", c4rec "\x7b\"type\": \"ping\"\x7d"] ≠ []) :=
  C4_amended
    [c4rec "\x7b\"type\": \"ping\"\x7d", c4rec "\x7b\"type\": \"ping\"\x7d",
     c4rec "\x7b\"type\": \"ping\"\x7d", c4rec "\x7b\"type\": \"ping\"\x7d"]
    _ (.str (strOf "ping")) rfl

/-! ## C2: one client + one later server message with the same id give
exactly one matched pair -/

/-- Does this record decode to a WebSocket message carrying correlation id
(Python-)equal to `i`? -/
def recIdMatches (i : Json) (r : Json) : Bool :=
  match decodeRecord r with
  | some (.wsMsg _ _ (some (j, _))) => pyKeyEq j i
  | _ => false

/-- Does the server half of a matched pair carry correlation id `i`? -/
def pairIdMatches (i : Json) (pr : Json × Json) : Bool :=
  match pr.2 with
  | .obj f =>
    match wsIdOf f with
    | some j => pyKeyEq j i
    | none => false
  | _ => false

theorem applyWs_wsRequests (st : St) (t c : Json) (d : Option (Json × Bool)) :
    (applyWs st t c d).wsRequests =
      match d with
      | some (i, true) => alSet pyKeyEq st.wsRequests i c
      | _ => st.wsRequests := by
  unfold applyWs
  match d with
  | none => rfl
  | some (i, true) => rfl
  | some (i, false) => cases halg : alGet pyKeyEq st.wsRequests i <;> simp [halg]

theorem applyWs_wsPairs (st : St) (t c : Json) (d : Option (Json × Bool)) :
    (applyWs st t c d).wsMatchedPairs =
      match d with
      | some (i, false) =>
        st.wsMatchedPairs ++
          (match alGet pyKeyEq st.wsRequests i with
           | some rc => [(rc, c)]
           | none => [])
      | _ => st.wsMatchedPairs := by
  unfold applyWs
  match d with
  | none => rfl
  | some (i, true) => rfl
  | some (i, false) => cases halg : alGet pyKeyEq st.wsRequests i <;> simp [halg]

theorem applyWs_wsRequests_client (st : St) (t c i : Json) :
    (applyWs st t c (some (i, true))).wsRequests = alSet pyKeyEq st.wsRequests i c :=
  applyWs_wsRequests st t c (some (i, true))

theorem applyWs_wsRequests_server (st : St) (t c i : Json) :
    (applyWs st t c (some (i, false))).wsRequests = st.wsRequests :=
  applyWs_wsRequests st t c (some (i, false))

theorem applyWs_wsPairs_client (st : St) (t c i : Json) :
    (applyWs st t c (some (i, true))).wsMatchedPairs = st.wsMatchedPairs :=
  applyWs_wsPairs st t c (some (i, true))

theorem applyWs_wsPairs_server (st : St) (t c i : Json) :
    (applyWs st t c (some (i, false))).wsMatchedPairs =
      st.wsMatchedPairs ++
        (match alGet pyKeyEq st.wsRequests i with
         | some rc => [(rc, c)]
         | none => []) :=
  applyWs_wsPairs st t c (some (i, false))

theorem decodeWs_wsMsg_inv {fields : List (Str × Json)} {t c : Json} {dd : Option (Json × Bool)}
    (h : decodeWs fields = some (.wsMsg t c dd)) :
    ∃ cf, c = .obj cf ∧ t = msgTypeOf cf ∧
      (∀ j b, dd = some (j, b) → wsIdOf cf = some j ∧ jsonHashable j = true) := by
  unfold decodeWs at h
  cases hpc : parse_ws_content (recGetD fields (strOf "content") .null) with
  | none => rw [hpc] at h; cases h
  | some po =>
    rw [hpc] at h
    cases po with
    | none => simp at h
    | some pj =>
      cases pj with
      | obj cf =>
        simp only at h
        by_cases htr : pyTruthy (.obj cf) = true
        · rw [if_pos htr] at h
          by_cases hht : jsonHashable (msgTypeOf cf) = true
          · rw [if_pos hht] at h
            cases hid : wsIdOf cf with
            | some i2 =>
              rw [hid] at h
              by_cases hhi : jsonHashable i2 = true
              · simp only [hhi, if_true] at h
                simp only [Option.some.injEq, RecAction.wsMsg.injEq] at h
                obtain ⟨ht, hcc, hdd⟩ := h
                refine ⟨cf, hcc.symm, ht.symm, ?_⟩
                intro j b hjb
                rw [← hdd] at hjb
                simp only [Option.some.injEq, Prod.mk.injEq] at hjb
                exact ⟨hjb.1 ▸ hid, hjb.1 ▸ hhi⟩
              · simp only [Bool.not_eq_true] at hhi
                simp only [hhi, Bool.false_eq_true, if_false] at h
                cases h
            | none =>
              rw [hid] at h
              simp only [Option.some.injEq, RecAction.wsMsg.injEq] at h
              obtain ⟨ht, hcc, hdd⟩ := h
              refine ⟨cf, hcc.symm, ht.symm, ?_⟩
              intro j b hjb
              rw [← hdd] at hjb
              cases hjb
          · rw [if_neg hht] at h
            cases h
        · rw [if_neg htr] at h
          simp at h
      | null => simp at h
      | bool b => simp at h
      | num n => simp at h
      | str s => simp at h
      | arr l => simp at h

theorem decodeRecord_wsMsg_inv {r : Json} {t c : Json} {dd : Option (Json × Bool)}
    (h : decodeRecord r = some (.wsMsg t c dd)) :
    ∃ cf, c = .obj cf ∧ t = msgTypeOf cf ∧
      (∀ j b, dd = some (j, b) → wsIdOf cf = some j ∧ jsonHashable j = true) := by
  cases r with
  | obj fields =>
    by_cases hws : isWsRecord fields
    · exact decodeWs_wsMsg_inv (by simpa [decodeRecord, hws] using h)
    · exfalso
      have hh : decodeHttp fields = some (.wsMsg t c dd) := by
        simpa [decodeRecord, hws] using h
      obtain ⟨u, m, rq, rs, _, heq⟩ := decodeHttp_inv hh
      cases heq
  | null => simp [decodeRecord] at h
  | bool b => simp [decodeRecord] at h
  | num n => simp [decodeRecord] at h
  | str s => simp [decodeRecord] at h
  | arr l => simp [decodeRecord] at h

theorem foldRecords_append (a b : List Json) (st : St) :
    foldRecords (a ++ b) st =
      match foldRecords a st with
      | some st' => foldRecords b st'
      | none => none := by
  induction a generalizing st with
  | nil => rfl
  | cons r tl ih =>
    cases hd : processLine st r with
    | none => simp [foldRecords, hd]
    | some st1 => simp [foldRecords, hd, ih]

/-- Processing records that never carry correlation id `i` leaves both the
client-mapping entry for `i` and the `i`-pairs untouched. -/
theorem fold_preserve_id (i : Json) (recs : List Json) : ∀ st0 st,
    foldRecords recs st0 = some st →
    (∀ r ∈ recs, recIdMatches i r = false) →
    alGet pyKeyEq st.wsRequests i = alGet pyKeyEq st0.wsRequests i ∧
    st.wsMatchedPairs.filter (pairIdMatches i) =
      st0.wsMatchedPairs.filter (pairIdMatches i) := by
  induction recs with
  | nil =>
    intro st0 st h _
    rw [show st = st0 from (Option.some.inj h).symm]
    exact ⟨rfl, rfl⟩
  | cons r tl ih =>
    intro st0 st h hfree
    cases hd : decodeRecord r with
    | none => simp [foldRecords, processLine, hd] at h
    | some a =>
      have h1 : foldRecords tl (applyAction st0 a) = some st := by
        simpa [foldRecords, processLine, hd] using h
      have hfree' : ∀ r' ∈ tl, recIdMatches i r' = false :=
        fun r' hr' => hfree r' (List.mem_cons_of_mem _ hr')
      have hih := ih (applyAction st0 a) st h1 hfree'
      have hstep : alGet pyKeyEq (applyAction st0 a).wsRequests i =
            alGet pyKeyEq st0.wsRequests i ∧
          (applyAction st0 a).wsMatchedPairs.filter (pairIdMatches i) =
            st0.wsMatchedPairs.filter (pairIdMatches i) := by
        cases a with
        | wsSkip => exact ⟨rfl, rfl⟩
        | http p m rq rs => exact ⟨rfl, rfl⟩
        | wsMsg mt c idir =>
          match idir with
          | none =>
            rw [show applyAction st0 (.wsMsg mt c none) = applyWs st0 mt c none from rfl]
            rw [applyWs_wsRequests, applyWs_wsPairs]
            exact ⟨rfl, rfl⟩
          | some (j, b) =>
            have hji : pyKeyEq j i = false := by
              have := hfree r (List.mem_cons_self _ _)
              simpa [recIdMatches, hd] using this
            rw [show applyAction st0 (.wsMsg mt c (some (j, b))) =
                  applyWs st0 mt c (some (j, b)) from rfl]
            rw [applyWs_wsRequests, applyWs_wsPairs]
            cases b with
            | true =>
              refine ⟨?_, rfl⟩
              exact alGet_alSet_ne pyKeyEq pyKeyEq_symm (fun a b c => pyKeyEq_trans) _ _ _ _ hji
            | false =>
              refine ⟨rfl, ?_⟩
              cases halg : alGet pyKeyEq st0.wsRequests j with
              | none => simp [halg]
              | some rc =>
                have hpm : pairIdMatches i (rc, c) = false := by
                  obtain ⟨cf, hcc, _, hjb⟩ := decodeRecord_wsMsg_inv hd
                  obtain ⟨hidf, _⟩ := hjb j false rfl
                  subst hcc
                  simp [pairIdMatches, hidf, hji]
                simp [halg, List.filter_append, List.filter, hpm]
      exact ⟨hih.1.trans hstep.1, hih.2.trans hstep.2⟩

/-- C2: an input with exactly one client-direction message and one later
server-direction message carrying correlation id `i` (no other message in
the input carries an id Python-equal to `i`) yields exactly one matched
pair with that id, containing exactly those two parsed message objects,
still unchanged in the final state. -/
theorem C2_exactly_one_pair (l1 l2 l3 : List Json) (rc rs : Json)
    (tc ts cc sc i : Json) (st : St)
    (hc : decodeRecord rc = some (.wsMsg tc cc (some (i, true))))
    (hs : decodeRecord rs = some (.wsMsg ts sc (some (i, false))))
    (hfree : ∀ r ∈ l1 ++ l2 ++ l3, recIdMatches i r = false)
    (hfold : foldRecords (l1 ++ rc :: (l2 ++ rs :: l3)) initSt = some st) :
    st.wsMatchedPairs.filter (pairIdMatches i) = [(cc, sc)] := by
  obtain ⟨ccf, hccf, _, hcid⟩ := decodeRecord_wsMsg_inv hc
  obtain ⟨scf, hscf, _, hsid⟩ := decodeRecord_wsMsg_inv hs
  obtain ⟨hcidf, hih⟩ := hcid i true rfl
  obtain ⟨hsidf, _⟩ := hsid i false rfl
  have hrefl : pyKeyEq i i = true := pyKeyEq_refl hih
  have hfree1 : ∀ r ∈ l1, recIdMatches i r = false := by
    intro r hr; exact hfree r (by simp [hr])
  have hfree2 : ∀ r ∈ l2, recIdMatches i r = false := by
    intro r hr; exact hfree r (by simp [hr])
  have hfree3 : ∀ r ∈ l3, recIdMatches i r = false := by
    intro r hr; exact hfree r (by simp [hr])
  rw [foldRecords_append] at hfold
  cases h1 : foldRecords l1 initSt with
  | none => rw [h1] at hfold; cases hfold
  | some st1 =>
    simp only [h1] at hfold
    rw [show foldRecords (rc :: (l2 ++ rs :: l3)) st1 =
          match processLine st1 rc with
          | none => none
          | some st' => foldRecords (l2 ++ rs :: l3) st' from rfl] at hfold
    simp only [show processLine st1 rc = some (applyAction st1 (.wsMsg tc cc (some (i, true)))) by
          simp [processLine, hc]] at hfold
    rw [foldRecords_append] at hfold
    set st2 := applyAction st1 (.wsMsg tc cc (some (i, true))) with hst2
    cases h3 : foldRecords l2 st2 with
    | none => rw [h3] at hfold; cases hfold
    | some st3 =>
      simp only [h3] at hfold
      rw [show foldRecords (rs :: l3) st3 =
            match processLine st3 rs with
            | none => none
            | some st' => foldRecords l3 st' from rfl] at hfold
      simp only [show processLine st3 rs = some (applyAction st3 (.wsMsg ts sc (some (i, false)))) by
            simp [processLine, hs]] at hfold
      set st4 := applyAction st3 (.wsMsg ts sc (some (i, false))) with hst4
      -- state after l1
      obtain ⟨hreq1, hpair1⟩ := fold_preserve_id i l1 initSt st1 h1 hfree1
      -- client step
      have hreq2 : alGet pyKeyEq st2.wsRequests i = some cc := by
        rw [hst2, show applyAction st1 (.wsMsg tc cc (some (i, true))) =
              applyWs st1 tc cc (some (i, true)) from rfl, applyWs_wsRequests_client]
        exact alGet_alSet_same pyKeyEq pyKeyEq_symm (fun a b c => pyKeyEq_trans) _ _ _ _ hrefl
      have hpair2 : st2.wsMatchedPairs.filter (pairIdMatches i) = [] := by
        rw [hst2, show applyAction st1 (.wsMsg tc cc (some (i, true))) =
              applyWs st1 tc cc (some (i, true)) from rfl, applyWs_wsPairs_client]
        rw [hpair1]
        simp [initSt]
      -- after l2
      obtain ⟨hreq3, hpair3⟩ := fold_preserve_id i l2 st2 st3 h3 hfree2
      -- server step
      have hpair4 : st4.wsMatchedPairs.filter (pairIdMatches i) = [(cc, sc)] := by
        rw [hst4, show applyAction st3 (.wsMsg ts sc (some (i, false))) =
              applyWs st3 ts sc (some (i, false)) from rfl, applyWs_wsPairs_server]
        simp only [hreq3.trans hreq2]
        rw [List.filter_append, hpair3.trans hpair2]
        have hmt : pairIdMatches i (cc, sc) = true := by
          subst hscf
          simp [pairIdMatches, hsidf, hrefl]
        simp [List.filter, hmt]
      obtain ⟨_, hpair5⟩ := fold_preserve_id i l3 st4 st hfold hfree3
      exact hpair5.trans hpair4

def c2rc : Json :=
  .obj [(strOf "type", .str (strOf "websocket")), (strOf "direction", .str (strOf "client")),
        (strOf "content", .str (strOf "\x7b\"type\": \"ping\", \"id\": 1\x7d"))]

def c2rs : Json :=
  .obj [(strOf "type", .str (strOf "websocket")), (strOf "direction", .str (strOf "server")),
        (strOf "content", .str (strOf "\x7b\"type\": \"pong\", \"id\": 1\x7d"))]

def c2cc : Json := .obj [(strOf "type", .str (strOf "ping")), (strOf "id", .num 1)]

def c2sc : Json := .obj [(strOf "type", .str (strOf "pong")), (strOf "id", .num 1)]

theorem C2_exactly_one_pair_witness :
    ∃ st, foldRecords ([] ++ c2rc :: ([] ++ c2rs :: [])) initSt = some st ∧
      st.wsMatchedPairs.filter (pairIdMatches (.num 1)) = [(c2cc, c2sc)] := by
  refine ⟨_, rfl, ?_⟩
  exact C2_exactly_one_pair [] [] [] c2rc c2rs (.str (strOf "ping")) (.str (strOf "pong"))
    c2cc c2sc (.num 1) _ rfl rfl (by simp) rfl

/-! ## C1: decode failures warn and continue; non-object JSON lines abort -/

/-- The per-line loop is the line-number-free fold plus the warning list. -/
theorem runAux_spec (ls : List Str) : ∀ (n : Nat) (ws : List Nat) (st : St),
    runAux ls n ws st =
      match foldLines ls st with
      | none => .error ()
      | some st' => .ok (ws ++ warnIdxs ls n, st') := by
  induction ls with
  | nil => intro n ws st; simp [runAux, foldLines, warnIdxs]
  | cons l tl ih =>
    intro n ws st
    by_cases hb : (pyStrip l).isEmpty = true
    · rw [show runAux (l :: tl) n ws st = runAux tl (n + 1) ws st by
            simp [runAux, hb]]
      rw [show foldLines (l :: tl) st = foldLines tl st by simp [foldLines, hb]]
      rw [show warnIdxs (l :: tl) n = warnIdxs tl (n + 1) by simp [warnIdxs, hb]]
      exact ih (n + 1) ws st
    · cases hj : json_loads (pyStrip l) with
      | none =>
        rw [show runAux (l :: tl) n ws st = runAux tl (n + 1) (ws ++ [n]) st by
              simp [runAux, hb, hj]]
        rw [show foldLines (l :: tl) st = foldLines tl st by simp [foldLines, hb, hj]]
        rw [show warnIdxs (l :: tl) n = n :: warnIdxs tl (n + 1) by simp [warnIdxs, hb, hj]]
        rw [ih (n + 1) (ws ++ [n]) st]
        cases foldLines tl st <;> simp
      | some r =>
        cases hp : processLine st r with
        | none =>
          rw [show runAux (l :: tl) n ws st = .error () by simp [runAux, hb, hj, hp]]
          rw [show foldLines (l :: tl) st = none by simp [foldLines, hb, hj, hp]]
        | some st1 =>
          rw [show runAux (l :: tl) n ws st = runAux tl (n + 1) ws st1 by
                simp [runAux, hb, hj, hp]]
          rw [show foldLines (l :: tl) st = foldLines tl st1 by simp [foldLines, hb, hj, hp]]
          rw [show warnIdxs (l :: tl) n = warnIdxs tl (n + 1) by simp [warnIdxs, hb, hj]]
          exact ih (n + 1) ws st1

theorem foldLines_append (a b : List Str) (st : St) :
    foldLines (a ++ b) st =
      match foldLines a st with
      | none => none
      | some st' => foldLines b st' := by
  induction a generalizing st with
  | nil => rfl
  | cons l tl ih =>
    by_cases hb : (pyStrip l).isEmpty = true
    · simp [foldLines, hb, ih]
    · cases hj : json_loads (pyStrip l) with
      | none => simp [foldLines, hb, hj, ih]
      | some r =>
        cases hp : processLine st r with
        | none => simp [foldLines, hb, hj, hp]
        | some st1 => simp [foldLines, hb, hj, hp, ih]

theorem warnIdxs_append (a b : List Str) : ∀ n,
    warnIdxs (a ++ b) n = warnIdxs a n ++ warnIdxs b (n + a.length) := by
  induction a with
  | nil => intro n; simp [warnIdxs]
  | cons l tl ih =>
    intro n
    by_cases hb : (pyStrip l).isEmpty = true
    · rw [show warnIdxs ((l :: tl) ++ b) n = warnIdxs (tl ++ b) (n + 1) by simp [warnIdxs, hb]]
      rw [show warnIdxs (l :: tl) n = warnIdxs tl (n + 1) by simp [warnIdxs, hb]]
      rw [ih (n + 1)]
      simp only [List.length_cons]
      ring_nf
    · cases hj : json_loads (pyStrip l) with
      | none =>
        rw [show warnIdxs ((l :: tl) ++ b) n = n :: warnIdxs (tl ++ b) (n + 1) by
              simp [warnIdxs, hb, hj]]
        rw [show warnIdxs (l :: tl) n = n :: warnIdxs tl (n + 1) by simp [warnIdxs, hb, hj]]
        rw [ih (n + 1)]
        simp only [List.length_cons, List.cons_append]
        ring_nf
      | some r =>
        rw [show warnIdxs ((l :: tl) ++ b) n = warnIdxs (tl ++ b) (n + 1) by
              simp [warnIdxs, hb, hj]]
        rw [show warnIdxs (l :: tl) n = warnIdxs tl (n + 1) by simp [warnIdxs, hb, hj]]
        rw [ih (n + 1)]
        simp only [List.length_cons]
        ring_nf

/-- A body renders without `TypeError`: absent/falsy, or a string. -/
def bodyOk (b : Json) : Bool := !pyTruthy b || isStrJson b

def reqInfoOk (r : ReqInfo) : Bool := isStrJson r.method && bodyOk r.body

def respInfoOk (r : RespInfo) : Bool := bodyOk r.body

def epOk (e : EndpointInfo) : Bool :=
  e.methods.all isStrJson && e.requests.all reqInfoOk && e.responses.all respInfoOk

/-- States whose report rendering cannot raise: string methods and message
types, string-or-falsy bodies, string request types behind every stored
client message and matched pair. -/
def stRenderOk (st : St) : Bool :=
  (st.httpEndpoints.all fun p => epOk p.2) &&
  (st.wsMessageTypes.all fun p => isStrJson p.1) &&
  (st.wsRequests.all fun p => isStrJson (contentTypeOf p.2)) &&
  (st.wsMatchedPairs.all fun pr => isStrJson (contentTypeOf pr.1))

/-- Which decoded records keep the state render-safe. -/
def actionOk : RecAction → Bool
  | .wsSkip => true
  | .wsMsg t _ _ => isStrJson t
  | .http _ m rq rs => isStrJson m && reqInfoOk rq && respInfoOk rs

/-- A parsed line that the loop and the renderer both survive. -/
def recordOk (r : Json) : Bool :=
  match decodeRecord r with
  | some a => actionOk a
  | none => false

theorem alGet_mem {κ β : Type} (keq : κ → κ → Bool) {l : List (κ × β)} {k : κ} {v : β}
    (h : alGet keq l k = some v) : ∃ k', (k', v) ∈ l := by
  unfold alGet at h
  cases hf : l.find? (fun p => keq p.1 k) with
  | none => rw [hf] at h; cases h
  | some p =>
    rw [hf] at h
    cases h
    exact ⟨p.1, by simpa using List.mem_of_find?_eq_some hf⟩

theorem alSet_vals {κ β : Type} (keq : κ → κ → Bool) (l : List (κ × β)) (k : κ) (v : β) :
    ∀ p ∈ alSet keq l k v, p ∈ l ∨ p.2 = v := by
  induction l with
  | nil => intro p hp; simp [alSet] at hp; simp [hp]
  | cons q tl ih =>
    obtain ⟨k1, v1⟩ := q
    intro p hp
    by_cases h1 : keq k1 k = true
    · rw [alSet, if_pos h1] at hp
      rcases List.mem_cons.mp hp with h | h
      · subst h; right; rfl
      · left; exact List.mem_cons_of_mem _ h
    · rw [alSet, if_neg h1] at hp
      rcases List.mem_cons.mp hp with h | h
      · subst h; left; exact List.mem_cons_self _ _
      · rcases ih p h with h' | h'
        · left; exact List.mem_cons_of_mem _ h'
        · right; exact h'

theorem pySetAdd_mem (l : List Json) (m : Json) :
    ∀ x ∈ pySetAdd l m, x ∈ l ∨ x = m := by
  intro x hx
  unfold pySetAdd at hx
  by_cases h : l.any (fun y => pyKeyEq y m) = true
  · rw [if_pos h] at hx; exact Or.inl hx
  · rw [if_neg h] at hx
    rcases List.mem_append.mp hx with h' | h'
    · exact Or.inl h'
    · right; simpa using h'

theorem optFlatMap_isSome {α : Type} (f : α → Option (List Str)) (xs : List α)
    (h : ∀ x ∈ xs, (f x).isSome = true) : (optFlatMap f xs).isSome = true := by
  induction xs with
  | nil => simp [optFlatMap]
  | cons x tl ih =>
    have hx := h x (List.mem_cons_self _ _)
    cases hfx : f x with
    | none => rw [hfx] at hx; cases hx
    | some lx =>
      have htl := ih (fun y hy => h y (List.mem_cons_of_mem _ hy))
      cases hftl : optFlatMap f tl with
      | none => rw [hftl] at htl; cases htl
      | some ltl => simp [optFlatMap, hfx, hftl]

theorem renderBodySection_isSome (cap : Str) (b : Json) (h : bodyOk b = true) :
    (renderBodySection cap b).isSome = true := by
  unfold renderBodySection
  by_cases ht : pyTruthy b = true
  · rw [if_pos ht]
    unfold bodyOk at h
    rw [ht] at h
    simp only [Bool.not_true, Bool.false_or] at h
    cases b <;> simp_all [isStrJson]
  · rw [if_neg ht]
    rfl

theorem renderExample_isSome (nb : Bool) (i : Nat) (rq : ReqInfo) (rs : RespInfo)
    (h1 : bodyOk rq.body = true) (h2 : bodyOk rs.body = true) :
    (renderExample nb i rq rs).isSome = true := by
  unfold renderExample
  cases hb1 : renderBodySection (strOf "**Request Body:**") rq.body with
  | none =>
    have := renderBodySection_isSome (strOf "**Request Body:**") rq.body h1
    rw [hb1] at this; cases this
  | some lb1 =>
    cases hb2 : renderBodySection (strOf "**Response Body:**") rs.body with
    | none =>
      have := renderBodySection_isSome (strOf "**Response Body:**") rs.body h2
      rw [hb2] at this; cases this
    | some lb2 => simp [hb1, hb2]

theorem renderExamples_isSome (nb : Bool) :
    ∀ (i : Nat) (prs : List (ReqInfo × RespInfo)),
    (∀ pr ∈ prs, bodyOk pr.1.body = true ∧ bodyOk pr.2.body = true) →
    (renderExamples nb i prs).isSome = true := by
  intro i prs
  induction prs generalizing i with
  | nil => intro _; simp [renderExamples]
  | cons pr tl ih =>
    intro h
    obtain ⟨hq, hs⟩ := h pr (List.mem_cons_self _ _)
    obtain ⟨rq, rs⟩ := pr
    cases hex : renderExample nb i rq rs with
    | none =>
      have := renderExample_isSome nb i rq rs hq hs
      rw [hex] at this; cases this
    | some lex =>
      have htl := ih (i + 1) (fun y hy => h y (List.mem_cons_of_mem _ hy))
      cases hftl : renderExamples nb (i + 1) tl with
      | none => rw [hftl] at htl; cases htl
      | some ltl => simp [renderExamples, hex, hftl]

theorem joinMethodsOpt_isSome (ms : List Json) (h : ms.all isStrJson = true) :
    (joinMethodsOpt ms).isSome = true := by
  unfold joinMethodsOpt
  rw [if_pos h]
  rfl

theorem sortKeysOpt_isSome (ks : List Json) (h : ks.all isStrJson = true) :
    (sortKeysOpt ks).isSome = true := by
  unfold sortKeysOpt
  rw [if_pos h]
  rfl

theorem renderEndpoint_isSome (st : St) (path : Str)
    (hok : (st.httpEndpoints.all fun p => epOk p.2) = true) :
    (renderEndpoint st path).isSome = true := by
  have hinfo : epOk (match alGet strEqb st.httpEndpoints path with
      | some e => e
      | none => emptyEndpoint) = true := by
    cases halg : alGet strEqb st.httpEndpoints path with
    | none => rfl
    | some e =>
      obtain ⟨k', hk'⟩ := alGet_mem strEqb halg
      exact (List.all_eq_true.mp hok) _ hk'
  unfold renderEndpoint
  set info := (match alGet strEqb st.httpEndpoints path with
    | some e => e
    | none => emptyEndpoint) with hinfodef
  unfold epOk at hinfo
  simp only [Bool.and_eq_true] at hinfo
  obtain ⟨⟨hms, hreqs⟩, hresps⟩ := hinfo
  cases hjm : joinMethodsOpt info.methods with
  | none =>
    have := joinMethodsOpt_isSome info.methods hms
    rw [hjm] at this; cases this
  | some mstr =>
    have hzip : ∀ pr ∈ info.requests.zip info.responses,
        bodyOk pr.1.body = true ∧ bodyOk pr.2.body = true := by
      intro pr hpr
      obtain ⟨hq, hs⟩ := List.of_mem_zip hpr
      have h1 := (List.all_eq_true.mp hreqs) _ hq
      have h2 := (List.all_eq_true.mp hresps) _ hs
      unfold reqInfoOk at h1
      simp only [Bool.and_eq_true] at h1
      exact ⟨h1.2, h2⟩
    cases hex : renderExamples (decide (info.requests.length > 1)) 0
        (info.requests.zip info.responses) with
    | none =>
      have := renderExamples_isSome (decide (info.requests.length > 1)) 0 _ hzip
      rw [hex] at this; cases this
    | some lex => simp [hjm, hex]

theorem foldl_alUpd_keys {β : Type} (f : β → β) (d : β) :
    ∀ (ms : List Json) (acc : List (Json × β)) (k : Json),
    k ∈ (ms.foldl (fun acc m => alUpd pyKeyEq d f acc m) acc).map Prod.fst →
    k ∈ acc.map Prod.fst ∨ k ∈ ms := by
  intro ms
  induction ms with
  | nil => intro acc k h; exact Or.inl h
  | cons m tl ih =>
    intro acc k h
    rw [List.foldl_cons] at h
    rcases ih _ k h with h' | h'
    · obtain ⟨p, hp, hfst⟩ := List.mem_map.mp h'
      rcases alUpd_keys pyKeyEq acc m d f p hp with h2 | h2
      · exact Or.inl (hfst ▸ h2)
      · right; rw [← hfst, h2]; exact List.mem_cons_self _ _
    · exact Or.inr (List.mem_cons_of_mem _ h')

theorem pairsByType_keys (st : St) :
    ∀ k ∈ (pairsByType st).map Prod.fst,
      ∃ pr ∈ st.wsMatchedPairs, k = contentTypeOf pr.1 := by
  unfold pairsByType
  suffices h : ∀ (prs : List (Json × Json)) (acc : List (Json × List (Json × Json))) k,
      k ∈ (prs.foldl (fun acc pr => alUpd pyKeyEq [] (fun l => l ++ [pr]) acc (contentTypeOf pr.1)) acc).map Prod.fst →
      k ∈ acc.map Prod.fst ∨ ∃ pr ∈ prs, k = contentTypeOf pr.1 by
    intro k hk
    rcases h st.wsMatchedPairs [] k hk with h' | h'
    · simp at h'
    · exact h'
  intro prs
  induction prs with
  | nil => intro acc k h; exact Or.inl h
  | cons pr tl ih =>
    intro acc k h
    rw [List.foldl_cons] at h
    rcases ih _ k h with h' | h'
    · obtain ⟨p, hp, hfst⟩ := List.mem_map.mp h'
      rcases alUpd_keys pyKeyEq acc (contentTypeOf pr.1) [] (fun l => l ++ [pr]) p hp with h2 | h2
      · exact Or.inl (hfst ▸ h2)
      · right; exact ⟨pr, List.mem_cons_self _ _, by rw [← hfst, h2]⟩
    · obtain ⟨pr', hpr', hk⟩ := h'
      exact Or.inr ⟨pr', List.mem_cons_of_mem _ hpr', hk⟩

theorem methodCounts_keys (st : St) :
    ∀ k ∈ (methodCounts st).map Prod.fst,
      ∃ e ∈ st.httpEndpoints, k ∈ e.2.methods := by
  unfold methodCounts
  suffices h : ∀ (eps : List (Str × EndpointInfo)) (acc : List (Json × Nat)) k,
      k ∈ (eps.foldl (fun acc p => p.2.methods.foldl (fun acc m => alUpd pyKeyEq 0 (· + 1) acc m) acc) acc).map Prod.fst →
      k ∈ acc.map Prod.fst ∨ ∃ e ∈ eps, k ∈ e.2.methods by
    intro k hk
    rcases h st.httpEndpoints [] k hk with h' | h'
    · simp at h'
    · exact h'
  intro eps
  induction eps with
  | nil => intro acc k h; exact Or.inl h
  | cons e tl ih =>
    intro acc k h
    rw [List.foldl_cons] at h
    rcases ih _ k h with h' | h'
    · rcases foldl_alUpd_keys (· + 1) 0 e.2.methods acc k h' with h2 | h2
      · exact Or.inl h2
      · exact Or.inr ⟨e, List.mem_cons_self _ _, h2⟩
    · obtain ⟨e', he', hk⟩ := h'
      exact Or.inr ⟨e', List.mem_cons_of_mem _ he', hk⟩

/-- Rendering never raises on a render-safe state. -/
theorem render_total (st : St) (hok : stRenderOk st = true) :
    (renderReport st).isSome = true := by
  unfold stRenderOk at hok
  simp only [Bool.and_eq_true] at hok
  obtain ⟨⟨⟨heps, hmts⟩, hreqs⟩, hpairs⟩ := hok
  have hs1 : (renderSection1 st).isSome = true := by
    unfold renderSection1
    have := optFlatMap_isSome (renderEndpoint st)
      (sortStrs (st.httpEndpoints.map (·.1)))
      (fun p _ => renderEndpoint_isSome st p heps)
    cases hf : optFlatMap (renderEndpoint st) (sortStrs (st.httpEndpoints.map (·.1))) with
    | none => rw [hf] at this; cases this
    | some l => simp [hf]
  have hs2 : (renderSection2 st).isSome = true := by
    unfold renderSection2
    have := sortKeysOpt_isSome (st.wsMessageTypes.map (·.1))
      (by
        rw [List.all_eq_true]
        intro k hk
        obtain ⟨p, hp, hfst⟩ := List.mem_map.mp hk
        exact hfst ▸ (List.all_eq_true.mp hmts) _ hp)
    cases hf : sortKeysOpt (st.wsMessageTypes.map (·.1)) with
    | none => rw [hf] at this; cases this
    | some l => simp [hf]
  have hs3 : (renderSection3 st).isSome = true := by
    unfold renderSection3
    have := sortKeysOpt_isSome ((pairsByType st).map (·.1))
      (by
        rw [List.all_eq_true]
        intro k hk
        obtain ⟨pr, hpr, hke⟩ := pairsByType_keys st k hk
        exact hke ▸ (List.all_eq_true.mp hpairs) _ hpr)
    cases hf : sortKeysOpt ((pairsByType st).map (·.1)) with
    | none => rw [hf] at this; cases this
    | some l => simp [hf]
  have hs4 : (renderSection4 st).isSome = true := by
    unfold renderSection4
    have hmc := sortKeysOpt_isSome ((methodCounts st).map (·.1))
      (by
        rw [List.all_eq_true]
        intro k hk
        obtain ⟨e, he, hke⟩ := methodCounts_keys st k hk
        have := (List.all_eq_true.mp heps) _ he
        unfold epOk at this
        simp only [Bool.and_eq_true] at this
        exact (List.all_eq_true.mp this.1.1) _ hke)
    have hct := sortKeysOpt_isSome (clientTypes st)
      (by
        rw [List.all_eq_true]
        intro k hk
        unfold clientTypes at hk
        obtain ⟨p, hp, hfst⟩ := List.mem_map.mp hk
        exact hfst ▸ (List.all_eq_true.mp hmts) _ (List.mem_of_mem_filter hp))
    have hak := sortKeysOpt_isSome (st.wsMessageTypes.map (·.1))
      (by
        rw [List.all_eq_true]
        intro k hk
        obtain ⟨p, hp, hfst⟩ := List.mem_map.mp hk
        exact hfst ▸ (List.all_eq_true.mp hmts) _ hp)
    cases h1 : sortKeysOpt ((methodCounts st).map (·.1)) with
    | none => rw [h1] at hmc; cases hmc
    | some l1 =>
      cases h2 : sortKeysOpt (clientTypes st) with
      | none => rw [h2] at hct; cases hct
      | some l2 =>
        cases h3 : sortKeysOpt (st.wsMessageTypes.map (·.1)) with
        | none => rw [h3] at hak; cases hak
        | some l3 => simp [h1, h2, h3]
  unfold renderReport
  cases hf1 : renderSection1 st with
  | none => rw [hf1] at hs1; cases hs1
  | some s1 =>
    cases hf2 : renderSection2 st with
    | none => rw [hf2] at hs2; cases hs2
    | some s2 =>
      cases hf3 : renderSection3 st with
      | none => rw [hf3] at hs3; cases hs3
      | some s3 =>
        cases hf4 : renderSection4 st with
        | none => rw [hf4] at hs4; cases hs4
        | some s4 => simp [hf1, hf2, hf3, hf4]

theorem stRenderOk_parts {st : St} (h : stRenderOk st = true) :
    (st.httpEndpoints.all fun p => epOk p.2) = true ∧
    (st.wsMessageTypes.all fun p => isStrJson p.1) = true ∧
    (st.wsRequests.all fun p => isStrJson (contentTypeOf p.2)) = true ∧
    (st.wsMatchedPairs.all fun pr => isStrJson (contentTypeOf pr.1)) = true := by
  unfold stRenderOk at h
  simp only [Bool.and_eq_true] at h
  exact ⟨h.1.1.1, h.1.1.2, h.1.2, h.2⟩

theorem stRenderOk_of_parts {st : St}
    (h1 : (st.httpEndpoints.all fun p => epOk p.2) = true)
    (h2 : (st.wsMessageTypes.all fun p => isStrJson p.1) = true)
    (h3 : (st.wsRequests.all fun p => isStrJson (contentTypeOf p.2)) = true)
    (h4 : (st.wsMatchedPairs.all fun pr => isStrJson (contentTypeOf pr.1)) = true) :
    stRenderOk st = true := by
  unfold stRenderOk
  simp only [Bool.and_eq_true]
  exact ⟨⟨⟨h1, h2⟩, h3⟩, h4⟩

/-- One render-safe step keeps the state render-safe. -/
theorem stRenderOk_step (st : St) (r : Json) (a : RecAction)
    (hd : decodeRecord r = some a) (hok : actionOk a = true) (hst : stRenderOk st = true) :
    stRenderOk (applyAction st a) = true := by
  obtain ⟨heps, hmts, hreqs, hpairs⟩ := stRenderOk_parts hst
  cases a with
  | wsSkip => exact hst
  | wsMsg t c d =>
    obtain ⟨cf, hcc, hteq, _⟩ := decodeRecord_wsMsg_inv hd
    have htstr : isStrJson t = true := by simpa [actionOk] using hok
    have hct : isStrJson (contentTypeOf c) = true := by
      rw [hcc, show contentTypeOf (.obj cf) = msgTypeOf cf from rfl, ← hteq]
      exact htstr
    refine stRenderOk_of_parts ?_ ?_ ?_ ?_
    · rw [show (applyAction st (.wsMsg t c d)).httpEndpoints = st.httpEndpoints from
        applyWs_httpEndpoints st t c d]
      exact heps
    · rw [show (applyAction st (.wsMsg t c d)).wsMessageTypes =
          alUpd pyKeyEq ⟨[], 0⟩ _ st.wsMessageTypes t from applyWs_msgTypes st t c d]
      rw [List.all_eq_true]
      intro p hp
      rcases alUpd_keys pyKeyEq st.wsMessageTypes t _ _ p hp with h' | h'
      · obtain ⟨q, hq, hfst⟩ := List.mem_map.mp h'
        have := (List.all_eq_true.mp hmts) _ hq
        simpa [hfst] using this
      · simpa [h'] using htstr
    · match d with
      | none => exact hreqs
      | some (i, false) =>
        rw [show (applyAction st (.wsMsg t c (some (i, false)))).wsRequests = st.wsRequests from
          applyWs_wsRequests_server st t c i]
        exact hreqs
      | some (i, true) =>
        rw [show (applyAction st (.wsMsg t c (some (i, true)))).wsRequests =
            alSet pyKeyEq st.wsRequests i c from applyWs_wsRequests_client st t c i]
        rw [List.all_eq_true]
        intro p hp
        rcases alSet_vals pyKeyEq st.wsRequests i c p hp with h' | h'
        · exact (List.all_eq_true.mp hreqs) _ h'
        · simpa [h'] using hct
    · match d with
      | none => exact hpairs
      | some (i, true) =>
        rw [show (applyAction st (.wsMsg t c (some (i, true)))).wsMatchedPairs =
            st.wsMatchedPairs from applyWs_wsPairs_client st t c i]
        exact hpairs
      | some (i, false) =>
        rw [show (applyAction st (.wsMsg t c (some (i, false)))).wsMatchedPairs =
            st.wsMatchedPairs ++
              (match alGet pyKeyEq st.wsRequests i with
               | some rc => [(rc, c)]
               | none => []) from applyWs_wsPairs_server st t c i]
        cases halg : alGet pyKeyEq st.wsRequests i with
        | none => simpa [halg] using hpairs
        | some rc =>
          rw [List.all_eq_true]
          intro pr hpr
          have hpr2 : pr ∈ st.wsMatchedPairs ++ [(rc, c)] := hpr
          rcases List.mem_append.mp hpr2 with h' | h'
          · exact (List.all_eq_true.mp hpairs) _ h'
          · obtain ⟨k', hk'⟩ := alGet_mem pyKeyEq halg
            have := (List.all_eq_true.mp hreqs) _ hk'
            simp only [List.mem_singleton] at h'
            simpa [h'] using this
  | http p m rq rs =>
    simp only [actionOk, Bool.and_eq_true] at hok
    obtain ⟨⟨hm, hrq⟩, hrs⟩ := hok
    refine stRenderOk_of_parts ?_ hmts hreqs hpairs
    rw [show (applyAction st (.http p m rq rs)).httpEndpoints =
        alSet strEqb st.httpEndpoints p (applyHttpEntry st p m rq rs) from rfl]
    have hbase : epOk (match alGet strEqb st.httpEndpoints p with
        | some e => e
        | none => emptyEndpoint) = true := by
      cases halg : alGet strEqb st.httpEndpoints p with
      | none => rfl
      | some e =>
        obtain ⟨k', hk'⟩ := alGet_mem strEqb halg
        exact (List.all_eq_true.mp heps) _ hk'
    have hnew : epOk (applyHttpEntry st p m rq rs) = true := by
      unfold applyHttpEntry
      set base := (match alGet strEqb st.httpEndpoints p with
        | some e => e
        | none => emptyEndpoint) with hbasedef
      unfold epOk at hbase
      simp only [Bool.and_eq_true] at hbase
      obtain ⟨⟨hbm, hbq⟩, hbs⟩ := hbase
      have hmeth : (pySetAdd base.methods m).all isStrJson = true := by
        rw [List.all_eq_true]
        intro x hx
        rcases pySetAdd_mem base.methods m x hx with h' | h'
        · exact (List.all_eq_true.mp hbm) _ h'
        · simpa [h'] using hm
      by_cases hdup : ((List.map sigOfReq base.requests).contains (sigOfReq rq)) = true
      · simp only [hdup, if_true]
        unfold epOk
        simp only [Bool.and_eq_true]
        exact ⟨⟨hmeth, hbq⟩, hbs⟩
      · simp only [hdup, if_false]
        unfold epOk
        simp only [Bool.and_eq_true]
        refine ⟨⟨hmeth, ?_⟩, ?_⟩
        · rw [List.all_eq_true]
          intro x hx
          have hx2 : x ∈ base.requests ++ [rq] := hx
          rcases List.mem_append.mp hx2 with h | h
          · exact (List.all_eq_true.mp hbq) _ h
          · simp only [List.mem_singleton] at h
            simpa [h] using hrq
        · rw [List.all_eq_true]
          intro x hx
          have hx2 : x ∈ base.responses ++ [rs] := hx
          rcases List.mem_append.mp hx2 with h | h
          · exact (List.all_eq_true.mp hbs) _ h
          · simp only [List.mem_singleton] at h
            simpa [h] using hrs
    rw [List.all_eq_true]
    intro q hq
    rcases alSet_vals strEqb st.httpEndpoints p _ q hq with h' | h'
    · exact (List.all_eq_true.mp heps) _ h'
    · rw [h']
      exact hnew

theorem stRenderOk_init : stRenderOk initSt = true := rfl

/-- Under render-safe records, the whole fold succeeds and stays
render-safe. -/
theorem foldLines_ok : ∀ (ls : List Str) (st : St), stRenderOk st = true →
    (∀ l ∈ ls, ∀ r, json_loads (pyStrip l) = some r → recordOk r = true) →
    ∃ st', foldLines ls st = some st' ∧ stRenderOk st' = true := by
  intro ls
  induction ls with
  | nil => intro st h _; exact ⟨st, rfl, h⟩
  | cons l tl ih =>
    intro st hst hok
    by_cases hb : (pyStrip l).isEmpty = true
    · obtain ⟨st', h1, h2⟩ := ih st hst (fun y hy => hok y (List.mem_cons_of_mem _ hy))
      exact ⟨st', by simp [foldLines, hb, h1], h2⟩
    · cases hj : json_loads (pyStrip l) with
      | none =>
        obtain ⟨st', h1, h2⟩ := ih st hst (fun y hy => hok y (List.mem_cons_of_mem _ hy))
        exact ⟨st', by simp [foldLines, hb, hj, h1], h2⟩
      | some r =>
        have hro := hok l (List.mem_cons_self _ _) r hj
        unfold recordOk at hro
        cases hd : decodeRecord r with
        | none => rw [hd] at hro; cases hro
        | some a =>
          rw [hd] at hro
          have hst1 := stRenderOk_step st r a hd hro hst
          obtain ⟨st', h1, h2⟩ := ih (applyAction st a) hst1
            (fun y hy => hok y (List.mem_cons_of_mem _ hy))
          exact ⟨st', by simp [foldLines, hb, hj, processLine, hd, h1], h2⟩

/-- C1 counterexample: the line `5` IS valid JSON text but not an
object-shaped record, so it is a decode failure in the spec's sense; the
claim says it must produce a warning and be skipped, yet the run raises
`AttributeError` (`record.get` on an `int`) — no warning, no report, and a
non-zero exit. -/
theorem C1_counterexample :
    json_loads (pyStrip (strOf "5")) = some (.num 5) ∧
    runLines [strOf "5"] = .error () :=
  ⟨rfl, rfl⟩

/-- C1 amended: a line that fails the textual JSON parse produces a
warning carrying its 1-based line number and is skipped, and — provided
every line that does parse yields a processable, render-safe record
object — the run still completes with a full report and a zero exit
status, the report being exactly the one produced without the malformed
line. -/
theorem C1_amended (l1 l2 : List Str) (bad : Str)
    (hbad1 : (pyStrip bad).isEmpty = false)
    (hbad2 : json_loads (pyStrip bad) = none)
    (hok : ∀ l ∈ l1 ++ l2, ∀ r, json_loads (pyStrip l) = some r → recordOk r = true) :
    ∃ ws rep, runLines (l1 ++ bad :: l2) = .ok (ws, rep) ∧
      (l1.length + 1) ∈ ws ∧
      ∃ ws2, runLines (l1 ++ l2) = .ok (ws2, rep) := by
  obtain ⟨st, hfl, hstok⟩ := foldLines_ok (l1 ++ l2) initSt stRenderOk_init hok
  have hfl' : foldLines (l1 ++ bad :: l2) initSt = some st := by
    rw [foldLines_append] at hfl ⊢
    cases hA : foldLines l1 initSt with
    | none => rw [hA] at hfl; cases hfl
    | some stA =>
      simp only [hA] at hfl ⊢
      rw [show foldLines (bad :: l2) stA = foldLines l2 stA by
        simp [foldLines, hbad1, hbad2]]
      exact hfl
  have hren := render_total st hstok
  cases hrep : renderReport st with
  | none => rw [hrep] at hren; cases hren
  | some rep =>
    refine ⟨warnIdxs (l1 ++ bad :: l2) 1, rep, ?_, ?_, warnIdxs (l1 ++ l2) 1, ?_⟩
    · unfold runLines
      rw [runAux_spec, hfl']
      simp [hrep]
    · rw [warnIdxs_append]
      rw [show warnIdxs (bad :: l2) (1 + l1.length) =
            (1 + l1.length) :: warnIdxs l2 (1 + l1.length + 1) by
        simp [warnIdxs, hbad1, hbad2]]
      simp [Nat.add_comm]
    · unfold runLines
      rw [runAux_spec, hfl]
      simp [hrep]

theorem C1_amended_witness :
    ∃ ws rep, runLines ([] ++ strOf "oops" :: []) = .ok (ws, rep) ∧
      (List.length ([] : List Str) + 1) ∈ ws ∧
      ∃ ws2, runLines ([] ++ []) = .ok (ws2, rep) :=
  C1_amended [] [] (strOf "oops") rfl rfl (by simp)

/-! ## C9: the client-originated list uses truthiness of the sample id -/

def c9rec : Json :=
  .obj [(strOf "type", .str (strOf "websocket")), (strOf "direction", .str (strOf "client")),
        (strOf "content", .str (strOf "\x7b\"type\": \"ping\", \"id\": 0\x7d"))]

/-- C9 counterexample: one message `{"type": "ping", "id": 0}`: its
retained sample carries the (non-null) correlation id `0`, yet `"ping"` is
absent from the Summary's client-originated list because `0` is falsy. -/
theorem C9_counterexample :
    ∃ st, foldRecords [c9rec] initSt = some st ∧
      mtSamples st (.str (strOf "ping")) =
        [.obj [(strOf "type", .str (strOf "ping")), (strOf "id", .num 0)]] ∧
      objGet [(strOf "type", .str (strOf "ping")), (strOf "id", .num 0)] (strOf "id") =
        some (.num 0) ∧
      clientTypes st = [] ∧
      sortKeysOpt (clientTypes st) = some [] :=
  ⟨_, rfl, rfl, rfl, rfl, rfl⟩

instance : IsTotal Str strLeProp := ⟨fun a b => le_total a b⟩

instance : IsTrans Str strLeProp := ⟨fun _ _ _ h1 h2 => le_trans h1 h2⟩

/-- C9 amended: when every message-type key is a string, the Summary's
client-originated list is exactly the lexicographically sorted list of
types one of whose (up to 3) retained samples carries a TRUTHY `id` —
samples whose id is 0, "", false or null do not qualify. -/
theorem C9_amended (st : St)
    (hkeys : (st.wsMessageTypes.all fun p => isStrJson p.1) = true) :
    ∃ names, sortKeysOpt (clientTypes st) = some (names.map Json.str) ∧
      List.Sorted strLeProp names ∧
      (∀ s : Str, s ∈ names ↔
        ∃ info, (Json.str s, info) ∈ st.wsMessageTypes ∧
          info.samples.any sampleHasTruthyId = true) := by
  have hcl : (clientTypes st).all isStrJson = true := by
    rw [List.all_eq_true]
    intro k hk
    unfold clientTypes at hk
    obtain ⟨p, hp, hfst⟩ := List.mem_map.mp hk
    exact hfst ▸ (List.all_eq_true.mp hkeys) _ (List.mem_of_mem_filter hp)
  refine ⟨sortStrs ((clientTypes st).map jsonStrVal), ?_, ?_, ?_⟩
  · unfold sortKeysOpt
    rw [if_pos hcl]
  · exact List.sorted_insertionSort strLeProp _
  · intro s
    have hperm : s ∈ sortStrs ((clientTypes st).map jsonStrVal) ↔
        s ∈ (clientTypes st).map jsonStrVal :=
      (List.perm_insertionSort strLeProp _).mem_iff
    rw [hperm]
    constructor
    · intro hs
      obtain ⟨k, hk, hkv⟩ := List.mem_map.mp hs
      unfold clientTypes at hk
      obtain ⟨p, hp, hfst⟩ := List.mem_map.mp hk
      obtain ⟨hpin, hpany⟩ := List.mem_filter.mp hp
      have hkstr := (List.all_eq_true.mp hkeys) _ hpin
      refine ⟨p.2, ?_, hpany⟩
      have : p.1 = Json.str s := by
        cases hp1 : p.1 with
        | str s' =>
          rw [hp1] at hfst
          subst hfst
          rw [← hkv]
          simp [jsonStrVal, hp1]
        | null => rw [hp1] at hkstr; cases hkstr
        | bool b => rw [hp1] at hkstr; cases hkstr
        | num n => rw [hp1] at hkstr; cases hkstr
        | arr l => rw [hp1] at hkstr; cases hkstr
        | obj f => rw [hp1] at hkstr; cases hkstr
      rw [← this]
      exact hpin
    · intro ⟨info, hin, hany⟩
      refine List.mem_map.mpr ⟨Json.str s, ?_, rfl⟩
      unfold clientTypes
      exact List.mem_map.mpr ⟨(Json.str s, info),
        List.mem_filter.mpr ⟨hin, hany⟩, rfl⟩

theorem C9_amended_witness :
    ∃ names,
      sortKeysOpt (clientTypes (St.mk []
        [(.str (strOf "b"), ⟨[.obj [(strOf "id", .num 1)]], 1⟩),
         (.str (strOf "a"), ⟨[.obj [(strOf "id", .null)]], 1⟩)] [] [] [])) =
        some (names.map Json.str) ∧
      List.Sorted strLeProp names ∧
      (∀ s : Str, s ∈ names ↔
        ∃ info, (Json.str s, info) ∈
            (St.mk []
              [(.str (strOf "b"), ⟨[.obj [(strOf "id", .num 1)]], 1⟩),
               (.str (strOf "a"), ⟨[.obj [(strOf "id", .null)]], 1⟩)] [] [] []).wsMessageTypes ∧
          info.samples.any sampleHasTruthyId = true) :=
  C9_amended _ rfl

/-! ## C3: dedup keeps at most one first-seen example per (method, body-signature) -/

theorem digitChar_isDigit (n : Nat) (h : n < 10) : (digitChar n).isDigit = true := by
  interval_cases n <;> decide

theorem natReprAux_cons (fuel n : Nat) :
    ∃ d t, natReprAux (fuel + 1) n = d :: t ∧ d.isDigit = true := by
  induction fuel generalizing n with
  | zero =>
    by_cases h : n < 10
    · exact ⟨digitChar n, [], by simp [natReprAux, h], digitChar_isDigit n h⟩
    · refine ⟨digitChar (n % 10), [], ?_, digitChar_isDigit _ (Nat.mod_lt _ (by omega))⟩
      simp [natReprAux, h]
  | succ f ih =>
    by_cases h : n < 10
    · exact ⟨digitChar n, [], by simp [natReprAux, h], digitChar_isDigit n h⟩
    · obtain ⟨d, t, hd, hdig⟩ := ih (n / 10)
      refine ⟨d, t ++ [digitChar (n % 10)], ?_, hdig⟩
      rw [show natReprAux (f + 1 + 1) n =
            natReprAux (f + 1) (n / 10) ++ [digitChar (n % 10)] by
        rw [natReprAux, if_neg h]]
      rw [hd]
      rfl

theorem natRepr_cons (n : Nat) : ∃ d t, natRepr n = d :: t ∧ d.isDigit = true :=
  natReprAux_cons n n

theorem natRepr_ne_nil (n : Nat) : natRepr n ≠ [] := by
  obtain ⟨d, t, hd, _⟩ := natRepr_cons n
  simp [hd]

theorem intRepr_ne_nil (n : Int) : intRepr n ≠ [] := by
  cases n with
  | ofNat m => exact natRepr_ne_nil m
  | negSucc k => simp [intRepr]

theorem intRepr_head (n : Int) :
    ∃ d t, intRepr n = d :: t ∧ (d.isDigit = true ∨ d = '-') := by
  cases n with
  | ofNat m =>
    obtain ⟨d, t, hd, hdig⟩ := natRepr_cons m
    exact ⟨d, t, hd, Or.inl hdig⟩
  | negSucc k => exact ⟨'-', natRepr (k + 1), rfl, Or.inr rfl⟩

theorem natRepr_eq_zero {m : Nat} (h : natRepr m = ['0']) : m = 0 := by
  unfold natRepr natReprAux at h
  by_cases hm : m < 10
  · rw [if_pos hm] at h
    simp only [List.cons.injEq, and_true] at h
    interval_cases m <;> simp_all [digitChar]
  · rw [if_neg hm] at h
    exfalso
    have h10 : 1 ≤ m := by omega
    obtain ⟨d, t, hd, _⟩ :=
      natReprAux_cons (m - 1) (m / 10)
    rw [show m - 1 + 1 = m by omega] at hd
    rw [hd] at h
    simp at h

theorem intRepr_eq_zero {n : Int} (h : intRepr n = ['0']) : n = 0 := by
  cases n with
  | ofNat m =>
    have := natRepr_eq_zero h
    simp [this]
  | negSucc k =>
    exfalso
    simp only [intRepr, List.cons.injEq] at h
    exact absurd h.1 (by decide)

theorem escCharAscii_ne_nil (c : Char) : escCharAscii c ≠ [] := by
  unfold escCharAscii
  repeat' split
  all_goals exact List.cons_ne_nil _ _

theorem quote_mem_escFold (s : Str) :
    '"' ∈ s.foldr (fun c acc => escCharAscii c ++ acc) ['"'] := by
  induction s with
  | nil => simp
  | cons x xs ih =>
    simp only [List.foldr_cons, List.mem_append]
    exact Or.inr ih

theorem escFold_eq_quote {s : Str}
    (h : s.foldr (fun c acc => escCharAscii c ++ acc) ['"'] = ['"']) : s = [] := by
  cases s with
  | nil => rfl
  | cons c tl =>
    exfalso
    simp only [List.foldr_cons] at h
    cases hc : escCharAscii c with
    | nil => exact escCharAscii_ne_nil c hc
    | cons a t =>
      rw [hc] at h
      simp only [List.cons_append, List.cons.injEq] at h
      obtain ⟨-, h2⟩ := h
      rcases List.append_eq_nil.mp h2 with ⟨-, h3⟩
      have hm := quote_mem_escFold tl
      rw [h3] at hm
      cases hm

theorem dumpsSorted_ne_nil (b : Json) : dumpsSorted b ≠ [] := by
  cases b with
  | null => simp [dumpsSorted, strOf]
  | bool v => cases v <;> simp [dumpsSorted, strOf]
  | num n => exact intRepr_ne_nil n
  | str s => simp [dumpsSorted, escStrAscii]
  | arr l => simp [dumpsSorted]
  | obj l => simp [dumpsSorted]

theorem dumpsSortedElems_ne_nil {l : List Json} (h : l ≠ []) : dumpsSortedElems l ≠ [] := by
  match l with
  | [] => exact absurd rfl h
  | [j] => simpa [dumpsSortedElems] using dumpsSorted_ne_nil j
  | j :: j2 :: tl =>
    rw [dumpsSortedElems]
    intro hc
    rcases List.append_eq_nil.mp hc with ⟨h1, _⟩
    exact dumpsSorted_ne_nil j h1

theorem dumpsSortedFields_nil {l : List (Str × Json)} (h : dumpsSortedFields l = []) :
    l = [] := by
  match l with
  | [] => rfl
  | (k, v) :: tl => rw [dumpsSortedFields] at h; cases h

theorem joinFieldsComma_nil {l : List (Str × Str)} (h : joinFieldsComma l = []) : l = [] := by
  match l with
  | [] => rfl
  | [(k, v)] =>
    rw [joinFieldsComma] at h
    rcases List.append_eq_nil.mp h with ⟨h1, _⟩
    simp [escStrAscii] at h1
  | (k, v) :: p :: tl =>
    rw [joinFieldsComma] at h
    rcases List.append_eq_nil.mp h with ⟨h1, _⟩
    simp [escStrAscii] at h1

theorem dumps_num_head {n : Int} {c : Char} {t : Str}
    (h : intRepr n = c :: t) : c.isDigit = true ∨ c = '-' := by
  obtain ⟨d, t', hd, hor⟩ := intRepr_head n
  rw [hd] at h
  cases h
  exact hor


theorem c3headEq {a b : Char} {s t : Str} (h : a :: s = b :: t) : a = b := by
  cases h
  rfl

theorem append_singleton_eq_nil {α : Type} {a : α} {X : List α} (h : X ++ [a] = [a]) : X = [] := by
  cases X with
  | nil => rfl
  | cons y ys =>
    exfalso
    have hlen := congrArg List.length h
    simp only [List.length_append, List.length_cons, List.length_nil] at hlen
    omega

theorem dumps_eq_false {b : Json} (h : dumpsSorted b = strOf "false") : b = .bool false := by
  cases b with
  | null => exact absurd h (by decide)
  | bool v => cases v with
    | true => exact absurd h (by decide)
    | false => rfl
  | num n =>
    rcases dumps_num_head (show intRepr n = 'f' :: strOf "alse" from h) with hd | hd <;>
      exact absurd hd (by decide)
  | str s =>
    have h2 : ('"' : Char) :: s.foldr (fun c acc => escCharAscii c ++ acc) ['"'] =
        'f' :: strOf "alse" := h
    exact absurd (c3headEq h2) (by decide)
  | arr l =>
    have h2 : ('[' : Char) :: (dumpsSortedElems l ++ [']']) = 'f' :: strOf "alse" := h
    exact absurd (c3headEq h2) (by decide)
  | obj l =>
    have h2 : ('{' : Char) ::
        (joinFieldsComma (List.insertionSort keyPairLe (dumpsSortedFields l)) ++ ['}']) =
        'f' :: strOf "alse" := h
    exact absurd (c3headEq h2) (by decide)

theorem dumps_eq_zero {b : Json} (h : dumpsSorted b = strOf "0") : b = .num 0 := by
  cases b with
  | null => exact absurd h (by decide)
  | bool v => cases v <;> exact absurd h (by decide)
  | num n => rw [intRepr_eq_zero (show intRepr n = ['0'] from h)]
  | str s =>
    have h2 : ('"' : Char) :: s.foldr (fun c acc => escCharAscii c ++ acc) ['"'] =
        '0' :: [] := h
    exact absurd (c3headEq h2) (by decide)
  | arr l =>
    have h2 : ('[' : Char) :: (dumpsSortedElems l ++ [']']) = '0' :: [] := h
    exact absurd (c3headEq h2) (by decide)
  | obj l =>
    have h2 : ('{' : Char) ::
        (joinFieldsComma (List.insertionSort keyPairLe (dumpsSortedFields l)) ++ ['}']) =
        '0' :: [] := h
    exact absurd (c3headEq h2) (by decide)

theorem dumps_eq_emptyStr {b : Json} (h : dumpsSorted b = strOf "\"\"") : b = .str [] := by
  cases b with
  | null => exact absurd h (by decide)
  | bool v => cases v <;> exact absurd h (by decide)
  | num n =>
    rcases dumps_num_head (show intRepr n = '"' :: ['"'] from h) with hd | hd <;>
      exact absurd hd (by decide)
  | str s =>
    have h2 : ('"' : Char) :: s.foldr (fun c acc => escCharAscii c ++ acc) ['"'] =
        '"' :: ['"'] := h
    simp only [List.cons.injEq] at h2
    rw [escFold_eq_quote h2.2]
  | arr l =>
    have h2 : ('[' : Char) :: (dumpsSortedElems l ++ [']']) = '"' :: ['"'] := h
    exact absurd (c3headEq h2) (by decide)
  | obj l =>
    have h2 : ('{' : Char) ::
        (joinFieldsComma (List.insertionSort keyPairLe (dumpsSortedFields l)) ++ ['}']) =
        '"' :: ['"'] := h
    exact absurd (c3headEq h2) (by decide)

theorem dumps_eq_emptyArr {b : Json} (h : dumpsSorted b = strOf "[]") : b = .arr [] := by
  cases b with
  | null => exact absurd h (by decide)
  | bool v => cases v <;> exact absurd h (by decide)
  | num n =>
    rcases dumps_num_head (show intRepr n = '[' :: [']'] from h) with hd | hd <;>
      exact absurd hd (by decide)
  | str s =>
    have h2 : ('"' : Char) :: s.foldr (fun c acc => escCharAscii c ++ acc) ['"'] =
        '[' :: [']'] := h
    exact absurd (c3headEq h2) (by decide)
  | arr l =>
    cases l with
    | nil => rfl
    | cons j tl =>
      exfalso
      have h2 : ('[' : Char) :: (dumpsSortedElems (j :: tl) ++ [']']) = '[' :: [']'] := h
      simp only [List.cons.injEq] at h2
      exact dumpsSortedElems_ne_nil (by simp) (append_singleton_eq_nil h2.2)
  | obj l =>
    have h2 : ('{' : Char) ::
        (joinFieldsComma (List.insertionSort keyPairLe (dumpsSortedFields l)) ++ ['}']) =
        '[' :: [']'] := h
    exact absurd (c3headEq h2) (by decide)

theorem dumps_eq_emptyObj {b : Json} (h : dumpsSorted b = ['{', '}']) : b = .obj [] := by
  cases b with
  | null => exact absurd h (by decide)
  | bool v => cases v <;> exact absurd h (by decide)
  | num n =>
    rcases dumps_num_head (show intRepr n = '{' :: ['}'] from h) with hd | hd <;>
      exact absurd hd (by decide)
  | str s =>
    have h2 : ('"' : Char) :: s.foldr (fun c acc => escCharAscii c ++ acc) ['"'] =
        '{' :: ['}'] := h
    exact absurd (c3headEq h2) (by decide)
  | arr l =>
    have h2 : ('[' : Char) :: (dumpsSortedElems l ++ [']']) = '{' :: ['}'] := h
    exact absurd (c3headEq h2) (by decide)
  | obj l =>
    cases l with
    | nil => rfl
    | cons p tl =>
      exfalso
      have h2 : ('{' : Char) ::
          (joinFieldsComma (List.insertionSort keyPairLe (dumpsSortedFields (p :: tl))) ++ ['}']) =
          '{' :: ['}'] := h
      simp only [List.cons.injEq] at h2
      have h4 := joinFieldsComma_nil (append_singleton_eq_nil h2.2)
      have h5 :=
        (List.perm_insertionSort keyPairLe (dumpsSortedFields (p :: tl))).length_eq
      rw [h4] at h5
      obtain ⟨k, v⟩ := p
      rw [show dumpsSortedFields ((k, v) :: tl) = (k, dumpsSorted v) :: dumpsSortedFields tl
        from rfl] at h5
      simp at h5

theorem falsy_nonnull {b : Json} (h1 : pyTruthy b = false) (h2 : b ≠ Json.null) :
    b = .bool false ∨ b = .num 0 ∨ b = .str [] ∨ b = .arr [] ∨ b = .obj [] := by
  cases b with
  | null => exact absurd rfl h2
  | bool v =>
    cases v with
    | true => exact absurd h1 (by decide)
    | false => exact Or.inl rfl
  | num n =>
    refine Or.inr (Or.inl ?_)
    simp only [pyTruthy, bne_eq_false_iff_eq] at h1
    rw [h1]
  | str s =>
    refine Or.inr (Or.inr (Or.inl ?_))
    simp only [pyTruthy, Bool.not_eq_false', List.isEmpty_iff] at h1
    rw [h1]
  | arr l =>
    refine Or.inr (Or.inr (Or.inr (Or.inl ?_)))
    simp only [pyTruthy, Bool.not_eq_false', List.isEmpty_iff] at h1
    rw [h1]
  | obj l =>
    refine Or.inr (Or.inr (Or.inr (Or.inr ?_)))
    simp only [pyTruthy, Bool.not_eq_false', List.isEmpty_iff] at h1
    rw [h1]

/-- The body part of a request signature, stated from the claim's words: the
canonical sorted-key JSON dump of the body for a non-null body, empty for a
null body (the script stores `None` as the body when a request has none). -/
def specBodySig : Json → Str
  | .null => []
  | b => dumpsSorted b

theorem specBodySig_null : specBodySig .null = [] := rfl

theorem specBodySig_of_ne_null {b : Json} (h : b ≠ Json.null) :
    specBodySig b = dumpsSorted b := by
  cases b with
  | null => exact absurd rfl h
  | bool v => rfl
  | num n => rfl
  | str s => rfl
  | arr l => rfl
  | obj l => rfl

theorem dumps_eq_falsy_truthy {b1 b2 : Json} (h : dumpsSorted b1 = dumpsSorted b2)
    (ht1 : pyTruthy b1 = true) (ht2 : pyTruthy b2 = false) (hn2 : b2 ≠ Json.null) :
    False := by
  rcases falsy_nonnull ht2 hn2 with hb | hb | hb | hb | hb
  · rw [hb] at h
    have hb1 := dumps_eq_false (show dumpsSorted b1 = strOf "false" from h)
    rw [hb1] at ht1
    exact absurd ht1 (by decide)
  · rw [hb] at h
    have hb1 := dumps_eq_zero (show dumpsSorted b1 = strOf "0" from h)
    rw [hb1] at ht1
    exact absurd ht1 (by decide)
  · rw [hb] at h
    have hb1 := dumps_eq_emptyStr (show dumpsSorted b1 = strOf "\"\"" from h)
    rw [hb1] at ht1
    exact absurd ht1 (by decide)
  · rw [hb] at h
    have hb1 := dumps_eq_emptyArr (show dumpsSorted b1 = strOf "[]" from h)
    rw [hb1] at ht1
    exact absurd ht1 (by decide)
  · rw [hb] at h
    have hb1 := dumps_eq_emptyObj (show dumpsSorted b1 = ['{', '}'] from h)
    rw [hb1] at ht1
    exact absurd ht1 (by decide)

theorem codeBodySig_of_specBodySig {b1 b2 : Json}
    (h : specBodySig b1 = specBodySig b2) :
    (if pyTruthy b1 then dumpsSorted b1 else []) =
      (if pyTruthy b2 then dumpsSorted b2 else []) := by
  by_cases hn1 : b1 = Json.null
  · by_cases hn2 : b2 = Json.null
    · rw [hn1, hn2]
    · exfalso
      rw [hn1, specBodySig_null, specBodySig_of_ne_null hn2] at h
      exact dumpsSorted_ne_nil b2 h.symm
  · by_cases hn2 : b2 = Json.null
    · exfalso
      rw [hn2, specBodySig_null, specBodySig_of_ne_null hn1] at h
      exact dumpsSorted_ne_nil b1 h
    · rw [specBodySig_of_ne_null hn1, specBodySig_of_ne_null hn2] at h
      by_cases ht1 : pyTruthy b1
      · by_cases ht2 : pyTruthy b2
        · rw [if_pos ht1, if_pos ht2, h]
        · exact absurd (dumps_eq_falsy_truthy h ht1 (Bool.not_eq_true _ ▸ ht2) hn2) not_false
      · by_cases ht2 : pyTruthy b2
        · exact absurd (dumps_eq_falsy_truthy h.symm ht2 (Bool.not_eq_true _ ▸ ht1) hn1) not_false
        · rw [if_neg ht1, if_neg ht2]

theorem sigOfReq_of_specSig {r1 r2 : ReqInfo}
    (hm : r1.method = r2.method) (hb : specBodySig r1.body = specBodySig r2.body) :
    sigOfReq r1 = sigOfReq r2 := by
  unfold sigOfReq
  rw [hm, codeBodySig_of_specBodySig hb]

/-- The (request, response) examples carried by the HTTP records whose
normalized path is `p`, in input order — the claim's "sequence of HTTP
events sharing a normalized path". -/
def httpEvents (p : Str) : List Json → List (ReqInfo × RespInfo)
  | [] => []
  | r :: tl =>
    (match decodeRecord r with
      | some (.http q _ req resp) => if strEqb q p then [(req, resp)] else []
      | _ => []) ++ httpEvents p tl

/-- The dedup discipline of the endpoint loop: keep an incoming example only
when its request signature is not already present. -/
def dedupBySig (acc : List (ReqInfo × RespInfo)) :
    List (ReqInfo × RespInfo) → List (ReqInfo × RespInfo)
  | [] => acc
  | ex :: tl =>
    if (acc.map (fun x => sigOfReq x.1)).contains (sigOfReq ex.1) then dedupBySig acc tl
    else dedupBySig (acc ++ [ex]) tl

/-- The stored (request, response) examples of path `p`. -/
def epZip (st : St) (p : Str) : List (ReqInfo × RespInfo) :=
  match alGet strEqb st.httpEndpoints p with
  | some e => e.requests.zip e.responses
  | none => []

/-- Every endpoint entry holds as many requests as responses. -/
def lenEpOk (st : St) : Prop :=
  ∀ pe ∈ st.httpEndpoints, pe.2.requests.length = pe.2.responses.length

theorem lenEpOk_init : lenEpOk initSt := by
  intro pe hpe
  cases hpe

theorem strEqb_refl (s : Str) : strEqb s s = true := by
  simp [strEqb]

theorem applyHttpEntry_of_get_some {st : St} {p : Str} {e0 : EndpointInfo}
    (hget : alGet strEqb st.httpEndpoints p = some e0) (m : Json) (req : ReqInfo)
    (resp : RespInfo) :
    (applyHttpEntry st p m req resp).requests =
      (if (e0.requests.map sigOfReq).contains (sigOfReq req)
        then e0.requests else e0.requests ++ [req]) ∧
    (applyHttpEntry st p m req resp).responses =
      (if (e0.requests.map sigOfReq).contains (sigOfReq req)
        then e0.responses else e0.responses ++ [resp]) := by
  unfold applyHttpEntry
  simp only [hget]
  by_cases hc : (e0.requests.map sigOfReq).contains (sigOfReq req)
  · simp only [hc, if_true]
    constructor <;> trivial
  · simp only [hc, if_false]
    rw [if_neg (by simpa using hc), if_neg (by simpa using hc)]
    constructor <;> trivial

theorem applyHttpEntry_of_get_none {st : St} {p : Str}
    (hget : alGet strEqb st.httpEndpoints p = none) (m : Json) (req : ReqInfo)
    (resp : RespInfo) :
    (applyHttpEntry st p m req resp).requests = [req] ∧
    (applyHttpEntry st p m req resp).responses = [resp] := by
  unfold applyHttpEntry
  simp only [hget]
  exact ⟨rfl, rfl⟩

theorem applyHttpEntry_len {st : St} (hlen : lenEpOk st) (p : Str) (m : Json) (req : ReqInfo)
    (resp : RespInfo) :
    (applyHttpEntry st p m req resp).requests.length =
      (applyHttpEntry st p m req resp).responses.length := by
  cases hget : alGet strEqb st.httpEndpoints p with
  | none =>
    obtain ⟨h1, h2⟩ := applyHttpEntry_of_get_none hget m req resp
    rw [h1, h2]
    rfl
  | some e0 =>
    obtain ⟨k', hk'⟩ := alGet_mem strEqb hget
    have he0 : e0.requests.length = e0.responses.length := hlen (k', e0) hk'
    obtain ⟨h1, h2⟩ := applyHttpEntry_of_get_some hget m req resp
    rw [h1, h2]
    by_cases hc : (e0.requests.map sigOfReq).contains (sigOfReq req)
    · rw [if_pos hc, if_pos hc, he0]
    · rw [if_neg hc, if_neg hc]
      simp [he0]

theorem lenEpOk_applyHttp {st : St} (hlen : lenEpOk st) (p : Str) (m : Json) (req : ReqInfo)
    (resp : RespInfo) : lenEpOk (applyHttp st p m req resp) := by
  intro pe hpe
  rcases alSet_vals strEqb st.httpEndpoints p (applyHttpEntry st p m req resp) pe hpe with
    hmem | hval
  · exact hlen pe hmem
  · rw [hval]
    exact applyHttpEntry_len hlen p m req resp

theorem lenEpOk_applyWs {st : St} (hlen : lenEpOk st) (t c : Json) (d : Option (Json × Bool)) :
    lenEpOk (applyWs st t c d) := by
  intro pe hpe
  rw [applyWs_httpEndpoints] at hpe
  exact hlen pe hpe

theorem epZip_applyWs (st : St) (t c : Json) (d : Option (Json × Bool)) (p : Str) :
    epZip (applyWs st t c d) p = epZip st p := by
  unfold epZip
  rw [applyWs_httpEndpoints]

theorem epZip_applyHttp_same {st : St} (hlen : lenEpOk st) (p : Str) (m : Json) (req : ReqInfo)
    (resp : RespInfo) :
    epZip (applyHttp st p m req resp) p =
      if ((epZip st p).map (fun x => sigOfReq x.1)).contains (sigOfReq req)
      then epZip st p else epZip st p ++ [(req, resp)] := by
  unfold applyHttp epZip
  rw [alGet_alSet_same strEqb strEqb_symm (fun a b c h1 h2 => strEqb_trans h1 h2)
    st.httpEndpoints p p _ (strEqb_refl p)]
  cases hget : alGet strEqb st.httpEndpoints p with
  | none =>
    obtain ⟨h1, h2⟩ := applyHttpEntry_of_get_none hget m req resp
    simp only [h1, h2]
    rfl
  | some e0 =>
    obtain ⟨k', hk'⟩ := alGet_mem strEqb hget
    have he0 : e0.requests.length = e0.responses.length := hlen (k', e0) hk'
    obtain ⟨h1, h2⟩ := applyHttpEntry_of_get_some hget m req resp
    simp only [h1, h2]
    have hmap : (e0.requests.zip e0.responses).map (fun x => sigOfReq x.1) =
        e0.requests.map sigOfReq := by
      have hfst : (e0.requests.zip e0.responses).map Prod.fst = e0.requests :=
        List.map_fst_zip _ _ (le_of_eq he0)
      calc (e0.requests.zip e0.responses).map (fun x => sigOfReq x.1)
          = ((e0.requests.zip e0.responses).map Prod.fst).map sigOfReq := by
            rw [List.map_map]; rfl
        _ = e0.requests.map sigOfReq := by rw [hfst]
    rw [hmap]
    by_cases hc : (e0.requests.map sigOfReq).contains (sigOfReq req)
    · simp only [if_pos hc]
    · simp only [if_neg hc]
      exact List.zip_append he0

theorem epZip_applyHttp_ne {st : St} {q p : Str} (hne : strEqb q p = false) (m : Json)
    (req : ReqInfo) (resp : RespInfo) :
    epZip (applyHttp st q m req resp) p = epZip st p := by
  unfold applyHttp epZip
  rw [alGet_alSet_ne strEqb strEqb_symm (fun a b c h1 h2 => strEqb_trans h1 h2)
    st.httpEndpoints q p _ hne]

theorem foldRecords_epZip (recs : List Json) : ∀ (st st' : St),
    foldRecords recs st = some st' → lenEpOk st →
    lenEpOk st' ∧ ∀ p, epZip st' p = dedupBySig (epZip st p) (httpEvents p recs) := by
  induction recs with
  | nil =>
    intro st st' h hlen
    rw [foldRecords] at h
    cases h
    exact ⟨hlen, fun p => rfl⟩
  | cons r tl ih =>
    intro st st' h hlen
    rw [foldRecords] at h
    cases hpl : processLine st r with
    | none => rw [hpl] at h; cases h
    | some st2 =>
      rw [hpl] at h
      unfold processLine at hpl
      cases hdec : decodeRecord r with
      | none => rw [hdec] at hpl; cases hpl
      | some a =>
        rw [hdec] at hpl
        simp only [Option.map_some', Option.some.injEq] at hpl
        cases a with
        | wsSkip =>
          have hst2 : st2 = st := hpl.symm
          subst hst2
          obtain ⟨hlen', hchar⟩ := ih _ st' h hlen
          refine ⟨hlen', fun p => ?_⟩
          rw [httpEvents]
          simp only [hdec]
          exact hchar p
        | wsMsg t c d =>
          have hst2 : st2 = applyWs st t c d := hpl.symm
          subst hst2
          obtain ⟨hlen', hchar⟩ := ih _ st' h (lenEpOk_applyWs hlen t c d)
          refine ⟨hlen', fun p => ?_⟩
          rw [httpEvents]
          simp only [hdec]
          have := hchar p
          rw [epZip_applyWs] at this
          exact this
        | http q m req resp =>
          have hst2 : st2 = applyHttp st q m req resp := hpl.symm
          subst hst2
          obtain ⟨hlen', hchar⟩ := ih _ st' h (lenEpOk_applyHttp hlen q m req resp)
          refine ⟨hlen', fun p => ?_⟩
          rw [httpEvents]
          simp only [hdec]
          by_cases hqp : strEqb q p = true
          · have hq : q = p := of_decide_eq_true (show decide (q = p) = true from hqp)
            subst hq
            rw [if_pos hqp, List.singleton_append, dedupBySig]
            have hstep := epZip_applyHttp_same hlen q m req resp
            have := hchar q
            by_cases hc : ((epZip st q).map (fun x => sigOfReq x.1)).contains (sigOfReq req)
            · rw [if_pos hc] at hstep
              rw [this, hstep, if_pos hc]
            · rw [if_neg hc] at hstep
              rw [this, hstep, if_neg hc]
          · have hqp' : strEqb q p = false := by
              revert hqp; cases strEqb q p <;> simp
            rw [if_neg (by simp [hqp']), List.nil_append]
            have := hchar p
            rw [epZip_applyHttp_ne hqp' m req resp] at this
            exact this

theorem dedupBySig_pairwise (l : List (ReqInfo × RespInfo)) :
    ∀ acc, List.Pairwise (fun x y => sigOfReq x.1 ≠ sigOfReq y.1) acc →
    List.Pairwise (fun x y => sigOfReq x.1 ≠ sigOfReq y.1) (dedupBySig acc l) := by
  induction l with
  | nil => intro acc hacc; exact hacc
  | cons ex tl ih =>
    intro acc hacc
    rw [dedupBySig]
    by_cases hc : (acc.map (fun x => sigOfReq x.1)).contains (sigOfReq ex.1)
    · rw [if_pos hc]
      exact ih acc hacc
    · rw [if_neg hc]
      refine ih (acc ++ [ex]) ?_
      rw [List.pairwise_append]
      refine ⟨hacc, List.pairwise_singleton _ _, ?_⟩
      intro a ha b hb
      have hbex : b = ex := by simpa using hb
      subst hbex
      intro heq
      have hm : sigOfReq b.1 ∈ acc.map (fun x => sigOfReq x.1) := by
        rw [← heq]
        exact List.mem_map_of_mem _ ha
      exact hc (by simpa using hm)

theorem dedupBySig_first (l : List (ReqInfo × RespInfo)) :
    ∀ acc, ∀ ex ∈ dedupBySig acc l,
    ex ∈ acc ∨ ∃ pre post, l = pre ++ ex :: post ∧
      (∀ e ∈ pre, sigOfReq e.1 ≠ sigOfReq ex.1) ∧
      sigOfReq ex.1 ∉ acc.map (fun x => sigOfReq x.1) := by
  induction l with
  | nil => intro acc ex hex; exact Or.inl hex
  | cons ev tl ih =>
    intro acc ex hex
    rw [dedupBySig] at hex
    by_cases hc : (acc.map (fun x => sigOfReq x.1)).contains (sigOfReq ev.1)
    · rw [if_pos hc] at hex
      rcases ih acc ex hex with hmem | ⟨pre, post, heq, hpre, hnin⟩
      · exact Or.inl hmem
      · refine Or.inr ⟨ev :: pre, post, by rw [heq, List.cons_append], ?_, hnin⟩
        intro e he
        rcases List.mem_cons.mp he with rfl | he'
        · intro hs
          refine hnin ?_
          rw [← hs]
          simpa using hc
        · exact hpre e he'
    · rw [if_neg hc] at hex
      rcases ih (acc ++ [ev]) ex hex with hmem | ⟨pre, post, heq, hpre, hnin⟩
      · rcases List.mem_append.mp hmem with hmem' | hmem'
        · exact Or.inl hmem'
        · have hexev : ex = ev := by simpa using hmem'
          subst hexev
          exact Or.inr ⟨[], tl, rfl, by simp, by simpa using hc⟩
      · have hnin' : sigOfReq ex.1 ∉ acc.map (fun x => sigOfReq x.1) := by
          intro hmem2
          refine hnin ?_
          rw [List.map_append]
          exact List.mem_append.mpr (Or.inl hmem2)
        have hnev : sigOfReq ex.1 ≠ sigOfReq ev.1 := by
          intro hs
          refine hnin ?_
          rw [List.map_append]
          refine List.mem_append.mpr (Or.inr ?_)
          simpa using hs
        refine Or.inr ⟨ev :: pre, post, by rw [heq, List.cons_append], ?_, hnin'⟩
        intro e he
        rcases List.mem_cons.mp he with rfl | he'
        · exact fun hs => hnev hs.symm
        · exact hpre e he'

/-- C3: in every completed run, each endpoint group retains at most one
(request, response) example per distinct (method, body-signature) pair —
the stored examples carry pairwise distinct pairs, where the body signature
is the canonical sorted-key serialization of the body and empty when the
body is absent — and every retained example is the first HTTP event bearing
its pair, in input order, among the events sharing its normalized path. -/
theorem C3_dedup (recs : List Json) (st : St) (p : Str) (e : EndpointInfo)
    (hrun : foldRecords recs initSt = some st)
    (hep : alGet strEqb st.httpEndpoints p = some e) :
    List.Pairwise
      (fun x y => ¬(x.1.method = y.1.method ∧ specBodySig x.1.body = specBodySig y.1.body))
      (e.requests.zip e.responses) ∧
    ∀ ex ∈ e.requests.zip e.responses, ∃ pre post,
      httpEvents p recs = pre ++ ex :: post ∧
      ∀ ev ∈ pre,
        ¬(ev.1.method = ex.1.method ∧ specBodySig ev.1.body = specBodySig ex.1.body) := by
  obtain ⟨hlen', hchar⟩ := foldRecords_epZip recs initSt st hrun lenEpOk_init
  have hz : epZip st p = e.requests.zip e.responses := by
    unfold epZip
    rw [hep]
  have hchar' : e.requests.zip e.responses = dedupBySig [] (httpEvents p recs) := by
    rw [← hz]
    have h0 := hchar p
    rwa [show epZip initSt p = [] from rfl] at h0
  constructor
  · rw [hchar']
    exact (dedupBySig_pairwise (httpEvents p recs) [] List.Pairwise.nil).imp
      (fun h hcon => h (sigOfReq_of_specSig hcon.1 hcon.2))
  · intro ex hex
    rw [hchar'] at hex
    rcases dedupBySig_first (httpEvents p recs) [] ex hex with hmem | ⟨pre, post, heq, hpre, _⟩
    · cases hmem
    · refine ⟨pre, post, heq, ?_⟩
      intro ev hev hcon
      exact hpre ev hev (sigOfReq_of_specSig hcon.1 hcon.2)

def c3rec : Json :=
  .obj [(strOf "url", .str (strOf "/a")), (strOf "method", .str (strOf "GET"))]

def c3st : St := (foldRecords [c3rec, c3rec] initSt).getD initSt

def c3p : Str := strOf "/a"

def c3e : EndpointInfo := (alGet strEqb c3st.httpEndpoints c3p).getD emptyEndpoint

theorem C3_dedup_witness :
    List.Pairwise
      (fun x y => ¬(x.1.method = y.1.method ∧ specBodySig x.1.body = specBodySig y.1.body))
      (c3e.requests.zip c3e.responses) ∧
    ∀ ex ∈ c3e.requests.zip c3e.responses, ∃ pre post,
      httpEvents c3p [c3rec, c3rec] = pre ++ ex :: post ∧
      ∀ ev ∈ pre,
        ¬(ev.1.method = ex.1.method ∧ specBodySig ev.1.body = specBodySig ex.1.body) :=
  C3_dedup [c3rec, c3rec] c3st c3p c3e rfl rfl

/-! ## C8: the body redaction

The three substitutions do not commute (counterexample below), but the
composed redaction is idempotent.  The proof works through a simulation
relation `Sub` decomposing the output of one `re.sub` pass into kept
characters (where the pattern failed) and replacement blocks. -/

theorem subSkip_drop (mLen : Str → Option Nat) (repl : Str) :
    ∀ (k : Nat) (s : Str), subSkip mLen repl k s = subSkip mLen repl 0 (s.drop k) := by
  intro k
  induction k with
  | zero => intro s; rfl
  | succ k ih =>
    intro s
    cases s with
    | nil => rfl
    | cons c rest =>
      rw [subSkip, ih rest]
      rfl

theorem subSkip_zero_cons (mLen : Str → Option Nat) (repl : Str) (c : Char) (rest : Str) :
    subSkip mLen repl 0 (c :: rest) =
      match mLen (c :: rest) with
      | some n => repl ++ subSkip mLen repl (n - 1) rest
      | none => c :: subSkip mLen repl 0 rest := rfl

/-- One pass of `re.sub` decomposed: each output position is either a kept
character (the pattern fails on the remaining input there) or a replacement
block standing for a nonempty match. -/
inductive MSub (mLen : Str → Option Nat) (repl : Str) : Str → Str → Prop
  | nil : MSub mLen repl [] []
  | keep (c : Char) {u v : Str} (hu : mLen (c :: u) = none) (h : MSub mLen repl u v) :
      MSub mLen repl (c :: u) (c :: v)
  | rep (m : Str) {u v : Str} (hne : m ≠ []) (hm : mLen (m ++ u) = some m.length)
      (h : MSub mLen repl u v) : MSub mLen repl (m ++ u) (repl ++ v)

/-- Matchers report a positive length bounded by the input length. -/
def MLenOk (mLen : Str → Option Nat) : Prop :=
  ∀ s n, mLen s = some n → 0 < n ∧ n ≤ s.length

theorem sub_spec_aux {mLen : Str → Option Nat} {repl : Str} (hok : MLenOk mLen) :
    ∀ (N : Nat) (s : Str), s.length ≤ N → MSub mLen repl s (subSkip mLen repl 0 s) := by
  intro N
  induction N with
  | zero =>
    intro s hs
    have hnil : s = [] := by
      cases s with
      | nil => rfl
      | cons c t => simp at hs
    subst hnil
    exact MSub.nil
  | succ N ih =>
    intro s hs
    cases s with
    | nil => exact MSub.nil
    | cons c rest =>
      cases hm : mLen (c :: rest) with
      | none =>
        rw [subSkip_zero_cons]
        simp only [hm]
        exact MSub.keep c hm (ih rest (by simpa using Nat.le_of_succ_le_succ hs))
      | some n =>
        obtain ⟨hpos, hle⟩ := hok _ _ hm
        rw [subSkip_zero_cons]
        simp only [hm]
        rw [subSkip_drop]
        have hdrop : rest.drop (n - 1) = (c :: rest).drop n := by
          cases n with
          | zero => exact absurd hpos (by simp)
          | succ k => rfl
        rw [hdrop]
        have hsplit : c :: rest = (c :: rest).take n ++ (c :: rest).drop n :=
          (List.take_append_drop n _).symm
        have htlen : ((c :: rest).take n).length = n := by
          rw [List.length_take]
          exact min_eq_left hle
        have hmlen2 : mLen ((c :: rest).take n ++ (c :: rest).drop n) =
            some ((c :: rest).take n).length := by
          rw [← hsplit, hm, htlen]
        have htne : (c :: rest).take n ≠ [] := by
          cases n with
          | zero => exact absurd hpos (by simp)
          | succ k => simp
        have hdlen : ((c :: rest).drop n).length ≤ N := by
          rw [List.length_drop]
          have := hs
          simp only [List.length_cons] at this
          omega
        have hrec := ih ((c :: rest).drop n) hdlen
        have := MSub.rep ((c :: rest).take n) htne hmlen2 hrec
        rwa [← hsplit] at this

theorem sub_spec {mLen : Str → Option Nat} {repl : Str} (hok : MLenOk mLen) (s : Str) :
    MSub mLen repl s (subSkip mLen repl 0 s) :=
  sub_spec_aux hok s.length s le_rfl

theorem jwtMatchLen_eq_some {s : Str} {n : Nat} :
    jwtMatchLen s = some n ↔ ∃ r1 r2 r3,
      s = 'e' :: 'y' :: 'J' :: r1 ∧
      r1.dropWhile jwtClassCh = '.' :: 'e' :: 'y' :: 'J' :: r2 ∧
      r2.dropWhile jwtClassCh = '.' :: r3 ∧
      n = 3 + (r1.takeWhile jwtClassCh).length + 1 + 3 + (r2.takeWhile jwtClassCh).length + 1 +
        (r3.takeWhile jwtClassCh).length := by
  constructor
  · intro h
    unfold jwtMatchLen at h
    split at h
    next r1 =>
      split at h
      next =>
        rename_i r2 heq1
        split at h
        next =>
          rename_i r3 heq2
          simp only [Option.some.injEq] at h
          exact ⟨r1, r2, r3, rfl, heq1, heq2, h.symm⟩
        next => cases h
      next => cases h
    next => cases h
  · rintro ⟨r1, r2, r3, rfl, h1, h2, rfl⟩
    unfold jwtMatchLen
    simp only [h1, h2]

theorem refreshMatchLen_eq_some {s : Str} {n : Nat} :
    refreshMatchLen s = some n ↔
      toLowerStr (s.take 13) = strOf "refresh_token" ∧ 13 ≤ s.length ∧
      ((s.drop 13).takeWhile refreshSepCh).length ≠ 0 ∧
      64 ≤ (((s.drop 13).dropWhile refreshSepCh).takeWhile hexIcCh).length ∧
      n = 13 + ((s.drop 13).takeWhile refreshSepCh).length +
        (((s.drop 13).dropWhile refreshSepCh).takeWhile hexIcCh).length := by
  constructor
  · intro h
    unfold refreshMatchLen at h
    split at h
    next hc =>
      by_cases h0 : ((s.drop 13).takeWhile refreshSepCh).length = 0
      · rw [if_pos h0] at h
        cases h
      · rw [if_neg h0] at h
        by_cases h64 : (((s.drop 13).dropWhile refreshSepCh).takeWhile hexIcCh).length < 64
        · rw [if_pos h64] at h
          cases h
        · rw [if_neg h64] at h
          simp only [Option.some.injEq] at h
          exact ⟨hc.1, by omega, h0, by omega, h.symm⟩
    next => cases h
  · rintro ⟨hc, hlen, h0, h64, rfl⟩
    unfold refreshMatchLen
    rw [if_pos ⟨hc, by omega⟩, if_neg h0, if_neg (by omega)]

theorem accessMatchLen_eq_some {s : Str} {n : Nat} :
    accessMatchLen s = some n ↔
      s.take 14 = strOf "\"access_token\"" ∧ ∃ r2 r3 r4,
      (s.drop 14).dropWhile (fun c => isPySpace c) = ':' :: r2 ∧
      r2.dropWhile (fun c => isPySpace c) = '"' :: r3 ∧
      r3.dropWhile (fun c => c ≠ '"') = '"' :: r4 ∧
      n = 14 + ((s.drop 14).takeWhile (fun c => isPySpace c)).length + 1 +
        (r2.takeWhile (fun c => isPySpace c)).length + 1 +
        (r3.takeWhile (fun c => c ≠ '"')).length + 1 := by
  constructor
  · intro h
    unfold accessMatchLen at h
    split at h
    next hc =>
      dsimp only at h
      split at h
      next =>
        rename_i r2 heq1
        split at h
        next =>
          rename_i r3 heq2
          split at h
          next =>
            rename_i r4 heq3
            simp only [Option.some.injEq] at h
            exact ⟨hc, r2, r3, r4, heq1, heq2, heq3, h.symm⟩
          next => cases h
        next => cases h
      next => cases h
    next => cases h
  · rintro ⟨hc, r2, r3, r4, h1, h2, h3, rfl⟩
    unfold accessMatchLen
    rw [if_pos hc]
    simp only [h1, h2, h3]

theorem takeWhile_dropWhile_length (p : Char → Bool) (l : Str) :
    (l.takeWhile p).length + (l.dropWhile p).length = l.length := by
  rw [← List.length_append, List.takeWhile_append_dropWhile]

theorem jwtMLenOk : MLenOk jwtMatchLen := by
  intro s n h
  obtain ⟨r1, r2, r3, rfl, h1, h2, rfl⟩ := jwtMatchLen_eq_some.mp h
  have e1 := takeWhile_dropWhile_length jwtClassCh r1
  have e2 := takeWhile_dropWhile_length jwtClassCh r2
  have e3 := takeWhile_dropWhile_length jwtClassCh r3
  have l1 : (r1.dropWhile jwtClassCh).length = r2.length + 4 := by rw [h1]; simp
  have l2 : (r2.dropWhile jwtClassCh).length = r3.length + 1 := by rw [h2]; simp
  constructor
  · omega
  · simp only [List.length_cons]
    omega

theorem refreshMLenOk : MLenOk refreshMatchLen := by
  intro s n h
  obtain ⟨hc, hlen, h0, h64, rfl⟩ := refreshMatchLen_eq_some.mp h
  have e1 := takeWhile_dropWhile_length refreshSepCh (s.drop 13)
  have e2 := takeWhile_dropWhile_length hexIcCh ((s.drop 13).dropWhile refreshSepCh)
  have l1 : (s.drop 13).length = s.length - 13 := List.length_drop 13 s
  constructor
  · omega
  · omega

theorem accessMLenOk : MLenOk accessMatchLen := by
  intro s n h
  obtain ⟨hc, r2, r3, r4, h1, h2, h3, rfl⟩ := accessMatchLen_eq_some.mp h
  have hlen14 : 14 ≤ s.length := by
    have := congrArg List.length hc
    rw [List.length_take] at this
    have h2' : (strOf "\"access_token\"").length = 14 := rfl
    rw [h2'] at this
    omega
  have e1 := takeWhile_dropWhile_length (fun c => isPySpace c) (s.drop 14)
  have e2 := takeWhile_dropWhile_length (fun c => isPySpace c) r2
  have e3 := takeWhile_dropWhile_length (fun c => c ≠ '"') r3
  have l1 : ((s.drop 14).dropWhile (fun c => isPySpace c)).length = r2.length + 1 := by
    rw [h1]; simp
  have l2 : (r2.dropWhile (fun c => isPySpace c)).length = r3.length + 1 := by
    rw [h2]; simp
  have l3 : (r3.dropWhile (fun c => c ≠ '"')).length = r4.length + 1 := by
    rw [h3]; simp
  have l0 : (s.drop 14).length = s.length - 14 := List.length_drop 14 s
  constructor
  · omega
  · omega

theorem msub_cons_of_ne {mLen : Str → Option Nat} {repl u v' : Str} {c : Char}
    (hrepl : repl ≠ []) (hne : repl.head? ≠ some c) (h : MSub mLen repl u (c :: v')) :
    ∃ u', u = c :: u' ∧ mLen (c :: u') = none ∧ MSub mLen repl u' v' := by
  generalize hv : (c :: v' : Str) = w at h
  cases h with
  | nil => cases hv
  | keep c2 hu h2 =>
    injection hv with hx1 hx2
    subst hx1
    subst hx2
    exact ⟨_, rfl, hu, h2⟩
  | rep m hne2 hm h2 =>
    exfalso
    cases hr : repl with
    | nil => exact hrepl hr
    | cons r0 rt =>
      rw [hr] at hv
      simp only [List.cons_append, List.cons.injEq] at hv
      exact hne (by rw [hr, ← hv.1]; rfl)

theorem msub_dropWhile_kept {mLen : Str → Option Nat} {repl : Str} (cls : Char → Bool) :
    ∀ {u v : Str}, MSub mLen repl u v → ∀ {d : Char} {v₂ : Str}, v.dropWhile cls = d :: v₂ →
    (repl.dropWhile cls).head? ≠ some d →
    repl.dropWhile cls ≠ [] →
    ∃ u₂, u.dropWhile cls = d :: u₂ ∧ MSub mLen repl u₂ v₂ := by
  intro u v h
  induction h with
  | nil =>
    intro d v₂ hd _ _
    simp [List.dropWhile] at hd
  | keep c hu hsub ih =>
    intro d v₂ hd hnd hstop
    rw [List.dropWhile_cons] at hd
    by_cases hc : cls c
    · rw [if_pos hc] at hd
      obtain ⟨u₂, hu2, hs⟩ := ih hd hnd hstop
      refine ⟨u₂, ?_, hs⟩
      rw [List.dropWhile_cons, if_pos hc, hu2]
    · rw [if_neg hc] at hd
      cases hd
      exact ⟨_, by rw [List.dropWhile_cons, if_neg hc], hsub⟩
  | rep m hne hm hsub ih =>
    intro d v₂ hd hnd hstop
    exfalso
    rw [List.dropWhile_append] at hd
    rw [if_neg (by simpa using hstop)] at hd
    cases hdr : repl.dropWhile cls with
    | nil => exact hstop hdr
    | cons x xs =>
      rw [hdr] at hd
      simp only [List.cons_append, List.cons.injEq] at hd
      exact hnd (by rw [hdr, hd.1]; rfl)

theorem msub_dropWhile_sub {mLen : Str → Option Nat} {repl : Str} (cls : Char → Bool)
    (hrepl : repl ≠ [])
    (hR : ∀ c, repl.head? = some c → cls c = false)
    (hM : ∀ (m u₀ : Str) (c : Char) (m' : Str),
      mLen (m ++ u₀) = some m.length → m = c :: m' → cls c = false) :
    ∀ {u v : Str}, MSub mLen repl u v →
      u.takeWhile cls = v.takeWhile cls ∧
      MSub mLen repl (u.dropWhile cls) (v.dropWhile cls) := by
  intro u v h
  induction h with
  | nil => exact ⟨rfl, MSub.nil⟩
  | keep c hu hsub ih =>
    by_cases hc : cls c
    · constructor
      · rw [List.takeWhile_cons, List.takeWhile_cons, if_pos hc, if_pos hc, ih.1]
      · rw [List.dropWhile_cons, List.dropWhile_cons, if_pos hc, if_pos hc]
        exact ih.2
    · constructor
      · rw [List.takeWhile_cons, List.takeWhile_cons, if_neg hc, if_neg hc]
      · rw [List.dropWhile_cons, List.dropWhile_cons, if_neg hc, if_neg hc]
        exact MSub.keep c hu hsub
  | rep m hne hm hsub ih =>
    rename_i u0 v0
    obtain ⟨c, m', rfl⟩ : ∃ c m', m = c :: m' := by
      cases m with
      | nil => exact absurd rfl hne
      | cons c m' => exact ⟨c, m', rfl⟩
    have hcm : cls c = false := hM _ _ _ _ hm rfl
    obtain ⟨r0, rt, hr⟩ : ∃ r0 rt, repl = r0 :: rt := by
      cases hrx : repl with
      | nil => exact absurd hrx hrepl
      | cons r0 rt => exact ⟨r0, rt, rfl⟩
    have hcr : cls r0 = false := hR r0 (by rw [hr]; rfl)
    have htU : ((c :: m') ++ u0).takeWhile cls = [] := by
      rw [List.cons_append, List.takeWhile_cons, if_neg (by simp [hcm])]
    have hdU : ((c :: m') ++ u0).dropWhile cls = (c :: m') ++ u0 := by
      rw [List.cons_append, List.dropWhile_cons, if_neg (by simp [hcm])]
    have htR : (repl ++ v0).takeWhile cls = [] := by
      rw [hr, List.cons_append, List.takeWhile_cons, if_neg (by simp [hcr])]
    have hdR : (repl ++ v0).dropWhile cls = repl ++ v0 := by
      rw [hr, List.cons_append, List.dropWhile_cons, if_neg (by simp [hcr])]
    constructor
    · rw [htU, htR]
    · rw [hdU, hdR]
      exact MSub.rep (c :: m') hne hm hsub

theorem msub_cases_head {mLen : Str → Option Nat} {repl u v₂ : Str} {d : Char}
    (h : MSub mLen repl u (d :: v₂)) :
    (∃ u', u = d :: u' ∧ mLen (d :: u') = none ∧ MSub mLen repl u' v₂) ∨
    (∃ m u₀ v₀, (d :: v₂ : Str) = repl ++ v₀ ∧ u = m ++ u₀ ∧ m ≠ [] ∧
      mLen (m ++ u₀) = some m.length ∧ MSub mLen repl u₀ v₀) := by
  generalize hv : (d :: v₂ : Str) = w at h
  cases h with
  | nil => cases hv
  | keep c2 hu h2 =>
    injection hv with hx1 hx2
    subst hx1
    subst hx2
    exact Or.inl ⟨_, rfl, hu, h2⟩
  | rep m hne hm h2 =>
    exact Or.inr ⟨m, _, _, rfl, rfl, hne, hm, h2⟩

theorem jwtPull {mLen : Str → Option Nat} {repl : Str}
    (hrepl : repl ≠ [])
    (hhead : ∀ c, repl.head? = some c → c ≠ 'e' ∧ c ≠ 'y' ∧ c ≠ 'J')
    (hstop : repl.dropWhile jwtClassCh ≠ [])
    (hnd : (repl.dropWhile jwtClassCh).head? ≠ some '.')
    {u v : Str} (h : MSub mLen repl u v) (hv : jwtMatchLen v ≠ none) :
    jwtMatchLen u ≠ none := by
  cases hvv : jwtMatchLen v with
  | none => exact absurd hvv hv
  | some n =>
    obtain ⟨r1, r2, r3, hveq, h1, h2, -⟩ := jwtMatchLen_eq_some.mp hvv
    subst hveq
    have hne_e : repl.head? ≠ some 'e' := fun hq => (hhead 'e' hq).1 rfl
    have hne_y : repl.head? ≠ some 'y' := fun hq => (hhead 'y' hq).2.1 rfl
    have hne_J : repl.head? ≠ some 'J' := fun hq => (hhead 'J' hq).2.2 rfl
    obtain ⟨u1, rfl, -, hs1⟩ := msub_cons_of_ne hrepl hne_e h
    obtain ⟨u2, rfl, -, hs2⟩ := msub_cons_of_ne hrepl hne_y hs1
    obtain ⟨u3, rfl, -, hs3⟩ := msub_cons_of_ne hrepl hne_J hs2
    obtain ⟨w, hw, hsw⟩ := msub_dropWhile_kept jwtClassCh hs3 h1 hnd hstop
    obtain ⟨w1, hweq, -, ht1⟩ := msub_cons_of_ne hrepl hne_e hsw
    obtain ⟨w2, rfl, -, ht2⟩ := msub_cons_of_ne hrepl hne_y ht1
    obtain ⟨w3, rfl, -, ht3⟩ := msub_cons_of_ne hrepl hne_J ht2
    obtain ⟨w4, hw4, -⟩ := msub_dropWhile_kept jwtClassCh ht3 h2 hnd hstop
    intro hu
    have hfin : jwtMatchLen ('e' :: 'y' :: 'J' :: u3) =
        some (3 + (u3.takeWhile jwtClassCh).length + 1 + 3 +
          (w3.takeWhile jwtClassCh).length + 1 + (w4.takeWhile jwtClassCh).length) :=
      jwtMatchLen_eq_some.mpr ⟨u3, w3, w4, rfl, by rw [hw, hweq], hw4, rfl⟩
    rw [hu] at hfin
    cases hfin
